import Mathlib

/-!
Verification of the rollback / saga subsystem of `compozy/releasepr`.

The development shallowly embeds the Go sources:
  * `internal/domain/rollback_state.go` — the pure state model and its
    transition helpers,
  * the saga executor (`SagaExecutor` with `Execute`, `executeStep`,
    `rollback`, `executeCompensation`, `findStepByType`),
  * `internal/orchestrator/compensating_acts.go` — the `DeleteBranch`
    compensating action,
  * `internal/repository/state_repository.go` — `Save`/`Load` with the
    SHA-256 integrity checksum over the serialized state.

Modelling conventions:
  * Go errors are strings (`fmt.Errorf` chains become string concatenation).
  * `map[string]any` rollback-data bags are association lists over a small
    value universe (`GoVal`); a nil map is the empty list.
  * Wall-clock fields (`StartedAt`, `UpdatedAt`, `CompletedAt`) and the
    time-stamped operation `ID` are nondeterministic in the source
    (`time.Now()`) and are omitted from the model; no statement below
    concerns them.
  * Side effects (git calls, compensation invocations) are surfaced as
    explicit traces in the return values, and file-system persistence as a
    pure store value, so behaviour is observable to theorems.
-/

/-- WorkflowStatus mirrors the Go `WorkflowStatus` string enum. -/
inductive WorkflowStatus where
  | pending
  | running
  | completed
  | failed
  | rolledBack
deriving DecidableEq, Repr

/-- OperationStatus mirrors the Go `OperationStatus` string enum. -/
inductive OperationStatus where
  | pending
  | running
  | completed
  | failed
  | rolledBack
deriving DecidableEq, Repr

/-- OperationType is a string in the source (`check_changes`, `create_branch`, …). -/
abbrev OperationType := String

/-- GoVal is the value universe for `map[string]any` rollback-data bags:
the claims only exercise string- and bool-valued entries. -/
inductive GoVal where
  | vStr (s : String)
  | vBool (b : Bool)
deriving DecidableEq, Repr

/-- RollbackData models a `map[string]any` bag as an association list
(first binding wins); a nil map is `[]`. -/
abbrev RollbackData := List (String × GoVal)

/-- dataGet models `m[k]` on a rollback-data bag. -/
def dataGet (d : RollbackData) (k : String) : Option GoVal :=
  match d with
  | [] => none
  | (k', v) :: rest => if k' = k then some v else dataGet rest k

/-- getStrVal models the Go type assertion `m[k].(string)`:
`some s` iff the key is present with a string value. -/
def getStrVal (d : RollbackData) (k : String) : Option String :=
  match dataGet d k with
  | some (.vStr s) => some s
  | _ => none

/-- getBoolVal models the Go type assertion `m[k].(bool)`. -/
def getBoolVal (d : RollbackData) (k : String) : Option Bool :=
  match dataGet d k with
  | some (.vBool b) => some b
  | _ => none

/-- OperationRecord mirrors the Go `OperationRecord` (time and ID fields
omitted, see module header; a nil `RollbackData` map is `[]`). -/
structure OperationRecord where
  type : OperationType
  status : OperationStatus
  rollbackData : RollbackData
  error : String
deriving DecidableEq, Repr

/-- RollbackState mirrors the Go `RollbackState` (time fields omitted). -/
structure RollbackState where
  sessionID : String
  version : String
  branchName : String
  originalBranch : String
  operations : List OperationRecord
  status : WorkflowStatus
  error : String
deriving DecidableEq, Repr

/-- NewRollbackState mirrors the Go constructor: empty record list,
`pending` workflow status. -/
def NewRollbackState (sessionID : String) : RollbackState :=
  { sessionID := sessionID
    version := ""
    branchName := ""
    originalBranch := ""
    operations := []
    status := .pending
    error := "" }

/-- pendingRec is the record that `AddOperation` appends for a given type. -/
def pendingRec (t : OperationType) : OperationRecord :=
  { type := t, status := .pending, rollbackData := [], error := "" }

/-- markFirst captures the Go scan-and-break loop shared by the
`MarkOperation*` helpers: transform the first record satisfying `p`,
leave everything else untouched. -/
def markFirst (p : OperationRecord → Bool) (f : OperationRecord → OperationRecord) :
    List OperationRecord → List OperationRecord
  | [] => []
  | r :: rs => if p r then f r :: rs else r :: markFirst p f rs

namespace RollbackState

/-- AddOperation appends a fresh `pending` record of the given type. -/
def AddOperation (rs : RollbackState) (opType : OperationType) : RollbackState :=
  { rs with operations := rs.operations ++ [pendingRec opType] }

/-- GetLastOperation returns the tail of the record list, if any. -/
def GetLastOperation (rs : RollbackState) : Option OperationRecord :=
  rs.operations.getLast?

/-- GetCompletedOperations returns the `completed` records in reverse
position order (the Go loop walks the slice from the end down). -/
def GetCompletedOperations (rs : RollbackState) : List OperationRecord :=
  rs.operations.reverse.filter (fun op => op.status = .completed)

/-- MarkOperationStarted transitions the first `pending` record of the
given type (forward scan with `break`) to `running`. -/
def MarkOperationStarted (rs : RollbackState) (opType : OperationType) : RollbackState :=
  let ops :=
    markFirst (fun r => r.type == opType && r.status == .pending)
      (fun r => { r with status := .running }) rs.operations
  { rs with operations := ops }

/-- MarkOperationCompleted transitions the first `running` record of the
given type to `completed` and stores the rollback-data bag on it. -/
def MarkOperationCompleted (rs : RollbackState) (opType : OperationType)
    (rollbackData : RollbackData) : RollbackState :=
  let ops :=
    markFirst (fun r => r.type == opType && r.status == .running)
      (fun r => { r with status := .completed, rollbackData := rollbackData })
      rs.operations
  { rs with operations := ops }

/-- MarkOperationFailed transitions the first `running` record of the given
type to `failed` with the error message, and unconditionally sets the
aggregate workflow status to `failed` and the state-level error. -/
def MarkOperationFailed (rs : RollbackState) (opType : OperationType)
    (err : String) : RollbackState :=
  let ops :=
    markFirst (fun r => r.type == opType && r.status == .running)
      (fun r => { r with status := .failed, error := err }) rs.operations
  { rs with
      operations := ops
      status := .failed
      error := err }

end RollbackState

theorem markFirst_eq_of_forall_false (p : OperationRecord → Bool)
    (f : OperationRecord → OperationRecord) :
    ∀ l : List OperationRecord, (∀ r ∈ l, p r = false) → markFirst p f l = l := by
  intro l
  induction l with
  | nil => intro _; rfl
  | cons a rest ih =>
    intro h
    have ha : p a = false := h a (List.mem_cons_self a rest)
    simp only [markFirst, ha, Bool.false_eq_true, if_false, List.cons.injEq, true_and]
    exact ih fun r hr => h r (List.mem_cons_of_mem a hr)

theorem markFirst_decomp (p : OperationRecord → Bool)
    (f : OperationRecord → OperationRecord) :
    ∀ l : List OperationRecord, (∃ r ∈ l, p r = true) →
      ∃ l1 r l2, l = l1 ++ r :: l2 ∧ (∀ x ∈ l1, p x = false) ∧ p r = true ∧
        markFirst p f l = l1 ++ f r :: l2 := by
  intro l
  induction l with
  | nil => rintro ⟨r, hr, _⟩; cases hr
  | cons a rest ih =>
    intro hex
    by_cases ha : p a = true
    · refine ⟨[], a, rest, rfl, ?_, ha, ?_⟩
      · intro x hx; cases hx
      · simp [markFirst, ha]
    · obtain ⟨r, hr, hpr⟩ := hex
      have hrmem : r ∈ rest := by
        rcases List.mem_cons.mp hr with h | h
        · subst h; exact absurd hpr ha
        · exact h
      obtain ⟨l1, r', l2, heq, hl1, hpr', hmark⟩ := ih ⟨r, hrmem, hpr⟩
      refine ⟨a :: l1, r', l2, by simp [heq], ?_, hpr', ?_⟩
      · intro x hx
        rcases List.mem_cons.mp hx with h | h
        · subst h; exact Bool.eq_false_iff.mpr ha
        · exact hl1 x h
      · simp [markFirst, ha, hmark]

theorem markFirst_get? (p : OperationRecord → Bool)
    (f : OperationRecord → OperationRecord) :
    ∀ (l : List OperationRecord) (i : Nat),
      (markFirst p f l).get? i = l.get? i ∨
        ∃ r, l.get? i = some r ∧ p r = true ∧ (markFirst p f l).get? i = some (f r) := by
  intro l
  induction l with
  | nil => intro i; left; rfl
  | cons a rest ih =>
    intro i
    by_cases ha : p a = true
    · cases i with
      | zero => right; exact ⟨a, rfl, ha, by simp [markFirst, ha]⟩
      | succ n => left; simp [markFirst, ha]
    · cases i with
      | zero => left; simp [markFirst, ha]
      | succ n =>
        have h := ih n
        simpa [markFirst, ha] using h

/-- StateCall enumerates the RollbackState mutators the invariant claim
quantifies over. -/
inductive StateCall where
  | add (t : OperationType)
  | start (t : OperationType)
  | complete (t : OperationType) (d : RollbackData)
  | fail (t : OperationType) (e : String)

/-- applyCall dispatches one mutator call to the state. -/
def applyCall (rs : RollbackState) : StateCall → RollbackState
  | .add t => rs.AddOperation t
  | .start t => rs.MarkOperationStarted t
  | .complete t d => rs.MarkOperationCompleted t d
  | .fail t e => rs.MarkOperationFailed t e

/-- applyCalls runs a sequence of mutator calls left to right. -/
def applyCalls (rs : RollbackState) (calls : List StateCall) : RollbackState :=
  calls.foldl applyCall rs

/-- statusLE is the reflexive-transitive closure of the allowed advance
steps `pending→running`, `running→completed`, `running→failed`. -/
def statusLE (s s' : OperationStatus) : Bool :=
  s == s' ||
    (s == .pending && (s' == .running || s' == .completed || s' == .failed)) ||
    (s == .running && (s' == .completed || s' == .failed))

theorem statusLE_trans {a b c : OperationStatus}
    (hab : statusLE a b = true) (hbc : statusLE b c = true) : statusLE a c = true := by
  revert hab hbc
  cases a <;> cases b <;> cases c <;> decide

theorem applyCall_record_mono (rs : RollbackState) (c : StateCall) (i : Nat)
    (r : OperationRecord) (h : rs.operations.get? i = some r) :
    ∃ r', (applyCall rs c).operations.get? i = some r' ∧
      r'.type = r.type ∧ statusLE r.status r'.status = true := by
  have hlt : i < rs.operations.length := by
    rcases List.get?_eq_some.mp h with ⟨hw, _⟩
    exact hw
  cases c with
  | add t =>
    refine ⟨r, ?_, rfl, by cases r.status <;> rfl⟩
    simp only [applyCall, RollbackState.AddOperation]
    rw [List.get?_append hlt]
    exact h
  | start t =>
    rcases markFirst_get? (fun x => x.type == t && x.status == .pending)
        (fun x => { x with status := .running }) rs.operations i with hsame | ⟨x, hx, hpx, hmx⟩
    · exact ⟨r, by simpa [applyCall, RollbackState.MarkOperationStarted] using hsame.trans h,
        rfl, by cases r.status <;> rfl⟩
    · have hxr : x = r := by rw [hx] at h; injection h
      subst hxr
      have hst : x.status = .pending := by
        have := (Bool.and_eq_true _ _).mp hpx |>.2
        exact eq_of_beq this
      exact ⟨{ x with status := .running },
        by simpa [applyCall, RollbackState.MarkOperationStarted] using hmx, rfl,
        by rw [hst]; rfl⟩
  | complete t d =>
    rcases markFirst_get? (fun x => x.type == t && x.status == .running)
        (fun x => { x with status := .completed, rollbackData := d })
        rs.operations i with hsame | ⟨x, hx, hpx, hmx⟩
    · exact ⟨r, by simpa [applyCall, RollbackState.MarkOperationCompleted] using hsame.trans h,
        rfl, by cases r.status <;> rfl⟩
    · have hxr : x = r := by rw [hx] at h; injection h
      subst hxr
      have hst : x.status = .running := by
        have := (Bool.and_eq_true _ _).mp hpx |>.2
        exact eq_of_beq this
      exact ⟨{ x with status := .completed, rollbackData := d },
        by simpa [applyCall, RollbackState.MarkOperationCompleted] using hmx, rfl,
        by rw [hst]; rfl⟩
  | fail t e =>
    rcases markFirst_get? (fun x => x.type == t && x.status == .running)
        (fun x => { x with status := .failed, error := e })
        rs.operations i with hsame | ⟨x, hx, hpx, hmx⟩
    · exact ⟨r, by simpa [applyCall, RollbackState.MarkOperationFailed] using hsame.trans h,
        rfl, by cases r.status <;> rfl⟩
    · have hxr : x = r := by rw [hx] at h; injection h
      subst hxr
      have hst : x.status = .running := by
        have := (Bool.and_eq_true _ _).mp hpx |>.2
        exact eq_of_beq this
      exact ⟨{ x with status := .failed, error := e },
        by simpa [applyCall, RollbackState.MarkOperationFailed] using hmx, rfl,
        by rw [hst]; rfl⟩

theorem applyCalls_record_mono (calls : List StateCall) :
    ∀ (rs : RollbackState) (i : Nat) (r : OperationRecord),
      rs.operations.get? i = some r →
      ∃ r', (applyCalls rs calls).operations.get? i = some r' ∧
        r'.type = r.type ∧ statusLE r.status r'.status = true := by
  induction calls with
  | nil => intro rs i r h; exact ⟨r, h, rfl, by cases r.status <;> rfl⟩
  | cons c rest ih =>
    intro rs i r h
    obtain ⟨r1, h1, hty1, hst1⟩ := applyCall_record_mono rs c i r h
    obtain ⟨r2, h2, hty2, hst2⟩ := ih (applyCall rs c) i r1 h1
    exact ⟨r2, h2, hty2.trans hty1, statusLE_trans hst1 hst2⟩

/-- runningRec is a test fixture: a record already in `running` status. -/
def runningRec (t : OperationType) : OperationRecord :=
  { type := t, status := .running, rollbackData := [], error := "" }

/-- twoPendingState holds two `pending` records of the same type. -/
def twoPendingState : RollbackState :=
  { NewRollbackState "cex" with operations := [pendingRec "t", pendingRec "t"] }

/-- twoRunningState holds two `running` records of the same type. -/
def twoRunningState : RollbackState :=
  { NewRollbackState "cex" with operations := [runningRec "t", runningRec "t"] }

/-- C4 counterexample: with two matching records of the same type, the Go
loops scan forward and `break`, so the EARLIEST record transitions, not the
most recent (latest-positioned) one as the claim states: after
`MarkOperationStarted` the statuses are `[running, pending]`, not
`[pending, running]`, and after `MarkOperationCompleted` they are
`[completed, running]`, not `[running, completed]`. -/
theorem c4_mark_earliest_counterexample :
    ((twoPendingState.MarkOperationStarted "t").operations.map (fun r => r.status)
        = [.running, .pending]) ∧
    ¬((twoPendingState.MarkOperationStarted "t").operations.map (fun r => r.status)
        = [.pending, .running]) ∧
    ((twoRunningState.MarkOperationCompleted "t" []).operations.map (fun r => r.status)
        = [.completed, .running]) ∧
    ¬((twoRunningState.MarkOperationCompleted "t" []).operations.map (fun r => r.status)
        = [.running, .completed]) := by
  decide

/-- C4 (amended): when a record of the given type in the expected prior
status exists, `MarkOperationStarted` transitions the EARLIEST
(lowest-positioned) `pending` record of that type to `running`, and
`MarkOperationCompleted` the earliest `running` record of that type to
`completed`; in each case exactly one record changes and every other record
is untouched. -/
theorem c4_marks_transition_earliest_match :
    (∀ (rs : RollbackState) (t : OperationType),
        (∃ r ∈ rs.operations, r.type = t ∧ r.status = .pending) →
        ∃ l1 r l2,
          rs.operations = l1 ++ r :: l2 ∧
          (∀ x ∈ l1, ¬(x.type = t ∧ x.status = .pending)) ∧
          r.type = t ∧ r.status = .pending ∧
          (rs.MarkOperationStarted t).operations
            = l1 ++ { r with status := OperationStatus.running } :: l2) ∧
    (∀ (rs : RollbackState) (t : OperationType) (d : RollbackData),
        (∃ r ∈ rs.operations, r.type = t ∧ r.status = .running) →
        ∃ l1 r l2,
          rs.operations = l1 ++ r :: l2 ∧
          (∀ x ∈ l1, ¬(x.type = t ∧ x.status = .running)) ∧
          r.type = t ∧ r.status = .running ∧
          (rs.MarkOperationCompleted t d).operations
            = l1 ++ { r with status := OperationStatus.completed, rollbackData := d } :: l2) := by
  constructor
  · rintro rs t ⟨r0, hr0, hty, hst⟩
    obtain ⟨l1, r, l2, heq, hl1, hpr, hmark⟩ :=
      markFirst_decomp (fun x => x.type == t && x.status == .pending)
        (fun x => { x with status := .running }) rs.operations
        ⟨r0, hr0, by simp [hty, hst]⟩
    simp only [Bool.and_eq_true, beq_iff_eq] at hpr
    refine ⟨l1, r, l2, heq, ?_, hpr.1, hpr.2, ?_⟩
    · intro x hx hcon
      have hfx := hl1 x hx
      rw [hcon.1, hcon.2] at hfx
      simp at hfx
    · simpa [RollbackState.MarkOperationStarted] using hmark
  · rintro rs t d ⟨r0, hr0, hty, hst⟩
    obtain ⟨l1, r, l2, heq, hl1, hpr, hmark⟩ :=
      markFirst_decomp (fun x => x.type == t && x.status == .running)
        (fun x => { x with status := .completed, rollbackData := d }) rs.operations
        ⟨r0, hr0, by simp [hty, hst]⟩
    simp only [Bool.and_eq_true, beq_iff_eq] at hpr
    refine ⟨l1, r, l2, heq, ?_, hpr.1, hpr.2, ?_⟩
    · intro x hx hcon
      have hfx := hl1 x hx
      rw [hcon.1, hcon.2] at hfx
      simp at hfx
    · simpa [RollbackState.MarkOperationCompleted] using hmark

/-- Witness for C4 (amended) at the two concrete fixture states. -/
theorem c4_marks_transition_earliest_match_witness :
    (∃ l1 r l2,
      twoPendingState.operations = l1 ++ r :: l2 ∧
      (∀ x ∈ l1, ¬(x.type = "t" ∧ x.status = OperationStatus.pending)) ∧
      r.type = "t" ∧ r.status = .pending ∧
      (twoPendingState.MarkOperationStarted "t").operations
        = l1 ++ { r with status := OperationStatus.running } :: l2) ∧
    (∃ l1 r l2,
      twoRunningState.operations = l1 ++ r :: l2 ∧
      (∀ x ∈ l1, ¬(x.type = "t" ∧ x.status = OperationStatus.running)) ∧
      r.type = "t" ∧ r.status = .running ∧
      (twoRunningState.MarkOperationCompleted "t" []).operations
        = l1 ++ { r with status := OperationStatus.completed, rollbackData := [] } :: l2) :=
  ⟨c4_marks_transition_earliest_match.1 twoPendingState "t" (by decide),
   c4_marks_transition_earliest_match.2 twoRunningState "t" [] (by decide)⟩

/-- C5: across any sequence of `AddOperation` / `MarkOperation*` calls,
`AddOperation` only appends, every pre-existing record stays at its
position with its type, and a record's status only advances along
`pending→running→{completed|failed}`. -/
theorem c5_records_append_only_status_monotone :
    (∀ (rs : RollbackState) (t : OperationType),
        (rs.AddOperation t).operations = rs.operations ++ [pendingRec t]) ∧
    (∀ (rs : RollbackState) (calls : List StateCall) (i : Nat) (r : OperationRecord),
        rs.operations.get? i = some r →
        ∃ r', (applyCalls rs calls).operations.get? i = some r' ∧
          r'.type = r.type ∧ statusLE r.status r'.status = true) :=
  ⟨fun _ _ => rfl, fun rs calls i r h => applyCalls_record_mono calls rs i r h⟩

/-- c5WitnessState is a one-record fixture for the C5 witness. -/
def c5WitnessState : RollbackState :=
  { NewRollbackState "w5" with operations := [pendingRec "a"] }

/-- Witness for C5 at a concrete state and call sequence. -/
theorem c5_records_append_only_status_monotone_witness :
    ((c5WitnessState.AddOperation "b").operations
        = c5WitnessState.operations ++ [pendingRec "b"]) ∧
    ∃ r', (applyCalls c5WitnessState [.start "a", .complete "a" []]).operations.get? 0
        = some r' ∧
      r'.type = (pendingRec "a").type ∧ statusLE (pendingRec "a").status r'.status = true :=
  ⟨c5_records_append_only_status_monotone.1 c5WitnessState "b",
   c5_records_append_only_status_monotone.2 c5WitnessState
     [.start "a", .complete "a" []] 0 (pendingRec "a") rfl⟩

/-- C9: `MarkOperationFailed` always sets the aggregate workflow status to
`failed` and records the error message on the state, and when no record of
the given type is in `running` status it modifies no individual record. -/
theorem c9_mark_failed_always_sets_workflow_failed :
    ∀ (rs : RollbackState) (t : OperationType) (e : String),
      (rs.MarkOperationFailed t e).status = .failed ∧
      (rs.MarkOperationFailed t e).error = e ∧
      ((∀ r ∈ rs.operations, ¬(r.type = t ∧ r.status = .running)) →
        (rs.MarkOperationFailed t e).operations = rs.operations) := by
  intro rs t e
  refine ⟨rfl, rfl, ?_⟩
  intro h
  show markFirst _ _ rs.operations = rs.operations
  apply markFirst_eq_of_forall_false
  intro r hr
  apply Bool.eq_false_iff.mpr
  intro htrue
  have hp := (Bool.and_eq_true _ _).mp htrue
  exact h r hr ⟨eq_of_beq hp.1, eq_of_beq hp.2⟩

/-- Witness for C9 on a state with no running record of the type. -/
theorem c9_mark_failed_always_sets_workflow_failed_witness :
    ((NewRollbackState "w9").MarkOperationFailed "x" "boom").status = .failed ∧
    ((NewRollbackState "w9").MarkOperationFailed "x" "boom").error = "boom" ∧
    ((NewRollbackState "w9").MarkOperationFailed "x" "boom").operations
      = (NewRollbackState "w9").operations := by
  have h := c9_mark_failed_always_sets_workflow_failed (NewRollbackState "w9") "x" "boom"
  exact ⟨h.1, h.2.1, h.2.2 (by decide)⟩

/-- charsLeadWith l p is true when p is a leading segment of l. -/
def charsLeadWith : List Char → List Char → Bool
  | _, [] => true
  | [], _ :: _ => false
  | c :: cs, p :: ps => c == p && charsLeadWith cs ps

/-- charsContain l pat is true when pat occurs contiguously inside l. -/
def charsContain : List Char → List Char → Bool
  | [], pat => charsLeadWith [] pat
  | c :: cs, pat => charsLeadWith (c :: cs) pat || charsContain cs pat

/-- strContains models Go `strings.Contains` on error text. -/
def strContains (s pat : String) : Bool :=
  charsContain s.data pat.data

/-- strEndsWith models Go `strings.HasSuffix`. -/
def strEndsWith (s post : String) : Bool :=
  charsLeadWith s.data.reverse post.data.reverse

/-- GitEnv gives pure responses for each git repository method that
`DeleteBranch` consults; remote deletion is attempt-indexed since Go
retries it and the remote may answer differently per attempt. -/
structure GitEnv where
  GetCurrentBranch : Except String String
  CheckoutBranch : String → Except String Unit
  ListLocalBranches : Except String (List String)
  DeleteBranch : String → Except String Unit
  ListRemoteBranches : Except String (List String)
  DeleteRemoteBranch : Nat → String → Except String Unit

/-- GitCall records a branch-deletion side effect issued by `DeleteBranch`. -/
inductive GitCall where
  | delLocal (branch : String)
  | delRemote (branch : String)
deriving DecidableEq, Repr

namespace CompensatingActions

/-- wasCreatedInSession mirrors the Go helper: the `created_in_session`
bool if present and bool-typed, false otherwise. -/
def wasCreatedInSession (rollbackData : RollbackData) : Bool :=
  (getBoolVal rollbackData "created_in_session").getD false

/-- branchExistsLocally mirrors the Go helper (a listing error means false). -/
def branchExistsLocally (env : GitEnv) (branchName : String) : Bool :=
  match env.ListLocalBranches with
  | .error _ => false
  | .ok branches => branches.contains branchName

/-- branchExistsRemotely mirrors the Go helper: any listed remote branch
ending in "/<branchName>". -/
def branchExistsRemotely (env : GitEnv) (branchName : String) : Bool :=
  match env.ListRemoteBranches with
  | .error _ => false
  | .ok branches => branches.any (fun br => strEndsWith br ("/" ++ branchName))

/-- tryCheckoutFallbackBranch mirrors the Go helper: main, then master. -/
def tryCheckoutFallbackBranch (env : GitEnv) : Except String Unit :=
  match env.CheckoutBranch "main" with
  | .ok _ => .ok ()
  | .error _ =>
    match env.CheckoutBranch "master" with
    | .ok _ => .ok ()
    | .error _ => .error "failed to checkout fallback branch (tried main and master)"

/-- switchFromBranchIfNeeded mirrors the Go helper: a no-op unless the
repository is currently on the branch being deleted. -/
def switchFromBranchIfNeeded (env : GitEnv) (branchName : String)
    (rollbackData : RollbackData) : Except String Unit :=
  match env.GetCurrentBranch with
  | .error _ => .ok ()
  | .ok currentBranch =>
    if currentBranch ≠ branchName then .ok ()
    else
      let fallback : Except String Unit :=
        match tryCheckoutFallbackBranch env with
        | .ok _ => .ok ()
        | .error fe => .error ("cannot switch from branch " ++ branchName ++ ": " ++ fe)
      match getStrVal rollbackData "original_branch" with
      | some originalBranch =>
        match env.CheckoutBranch originalBranch with
        | .ok _ => .ok ()
        | .error _ => fallback
      | none => fallback

/-- deleteLocalBranchIfExists mirrors the Go helper and records the issued
local delete call; a "not found" delete error is tolerated. -/
def deleteLocalBranchIfExists (env : GitEnv) (branchName : String) :
    List GitCall × Except String Unit :=
  if branchExistsLocally env branchName = false then ([], .ok ())
  else
    match env.DeleteBranch branchName with
    | .ok _ => ([.delLocal branchName], .ok ())
    | .error e =>
      if strContains e "not found" then ([.delLocal branchName], .ok ())
      else ([.delLocal branchName],
        .error ("failed to delete local branch " ++ branchName ++ ": " ++ e))

/-- remoteDeleteAttempts mirrors the Go retry loop (`maxRetries = 3`):
attempt counts up, fuel counts remaining attempts. -/
def remoteDeleteAttempts (env : GitEnv) (branchName : String) (attempt : Nat) :
    Nat → List GitCall × Except String Unit
  | 0 => ([], .ok ())
  | fuel + 1 =>
    match env.DeleteRemoteBranch attempt branchName with
    | .ok _ => ([.delRemote branchName], .ok ())
    | .error e =>
      if strContains e "not found" then ([.delRemote branchName], .ok ())
      else if fuel = 0 then
        ([.delRemote branchName],
          .error ("failed to delete remote branch " ++ branchName ++
            " after 3 attempts: " ++ e))
      else
        let rest := remoteDeleteAttempts env branchName (attempt + 1) fuel
        (.delRemote branchName :: rest.1, rest.2)

/-- deleteRemoteBranchIfPushed mirrors the Go helper: nothing unless the
bag says `pushed` and the branch still exists remotely. -/
def deleteRemoteBranchIfPushed (env : GitEnv) (branchName : String)
    (rollbackData : RollbackData) : List GitCall × Except String Unit :=
  let pushed := (getBoolVal rollbackData "pushed").getD false
  if pushed = false then ([], .ok ())
  else if branchExistsRemotely env branchName = false then ([], .ok ())
  else remoteDeleteAttempts env branchName 1 3

/-- DeleteBranch mirrors the Go compensation: branch name required, then
skip unless created in this session, switch away if needed, delete the
local branch, then the remote branch if pushed. The first component is the
trace of deletion calls issued. -/
def DeleteBranch (env : GitEnv) (rollbackData : RollbackData) :
    List GitCall × Except String Unit :=
  match getStrVal rollbackData "branch_name" with
  | none => ([], .error "branch_name not found in rollback data")
  | some branchName =>
    if wasCreatedInSession rollbackData = false then ([], .ok ())
    else
      match switchFromBranchIfNeeded env branchName rollbackData with
      | .error e => ([], .error e)
      | .ok _ =>
        let ld := deleteLocalBranchIfExists env branchName
        match ld.2 with
        | .error e => (ld.1, .error e)
        | .ok _ =>
          let rd := deleteRemoteBranchIfPushed env branchName rollbackData
          (ld.1 ++ rd.1, rd.2)

end CompensatingActions

/-- stubGitEnv is a concrete git environment for witnesses: on branch
`main`, local branch `feat` exists, remote `origin/feat` exists, all
operations succeed. -/
def stubGitEnv : GitEnv :=
  { GetCurrentBranch := .ok "main"
    CheckoutBranch := fun _ => .ok ()
    ListLocalBranches := .ok ["feat"]
    DeleteBranch := fun _ => .ok ()
    ListRemoteBranches := .ok ["origin/feat"]
    DeleteRemoteBranch := fun _ _ => .ok () }

/-- C10: without a string-valued `branch_name` in the bag, `DeleteBranch`
returns an error and issues no git call; the check precedes the
`created_in_session` gate. -/
theorem c10_delete_branch_requires_branch_name :
    ∀ (env : GitEnv) (rollbackData : RollbackData),
      getStrVal rollbackData "branch_name" = none →
      CompensatingActions.DeleteBranch env rollbackData
        = ([], .error "branch_name not found in rollback data") := by
  intro env d h
  simp [CompensatingActions.DeleteBranch, h]

/-- Witness for C10: a bag with `created_in_session: false` but no
`branch_name` still errors rather than silently skipping. -/
theorem c10_delete_branch_requires_branch_name_witness :
    CompensatingActions.DeleteBranch stubGitEnv [("created_in_session", GoVal.vBool false)]
      = ([], .error "branch_name not found in rollback data") :=
  c10_delete_branch_requires_branch_name stubGitEnv
    [("created_in_session", GoVal.vBool false)] rfl

/-- C6: gating of the `DeleteBranch` compensation. With `created_in_session`
false or absent no delete call is issued; with it true and `pushed` true
(branch existing locally and remotely, not currently checked out, deletes
succeeding) exactly a local then a remote delete are issued; with `pushed`
false or absent only the local delete is issued. -/
theorem c6_delete_branch_session_and_pushed_gating :
    (∀ (env : GitEnv) (d : RollbackData) (b : String),
        getStrVal d "branch_name" = some b →
        (dataGet d "created_in_session" = none ∨
          dataGet d "created_in_session" = some (.vBool false)) →
        CompensatingActions.DeleteBranch env d = ([], .ok ())) ∧
    (∀ (env : GitEnv) (d : RollbackData) (b cur : String)
        (locals remotes : List String),
        getStrVal d "branch_name" = some b →
        getBoolVal d "created_in_session" = some true →
        getBoolVal d "pushed" = some true →
        env.GetCurrentBranch = .ok cur → cur ≠ b →
        env.ListLocalBranches = .ok locals → b ∈ locals →
        env.DeleteBranch b = .ok () →
        env.ListRemoteBranches = .ok remotes →
        (∃ rb ∈ remotes, strEndsWith rb ("/" ++ b) = true) →
        env.DeleteRemoteBranch 1 b = .ok () →
        CompensatingActions.DeleteBranch env d
          = ([.delLocal b, .delRemote b], .ok ())) ∧
    (∀ (env : GitEnv) (d : RollbackData) (b cur : String) (locals : List String),
        getStrVal d "branch_name" = some b →
        getBoolVal d "created_in_session" = some true →
        (dataGet d "pushed" = none ∨ dataGet d "pushed" = some (.vBool false)) →
        env.GetCurrentBranch = .ok cur → cur ≠ b →
        env.ListLocalBranches = .ok locals → b ∈ locals →
        env.DeleteBranch b = .ok () →
        CompensatingActions.DeleteBranch env d = ([.delLocal b], .ok ())) := by
  refine ⟨?_, ?_, ?_⟩
  · intro env d b hbn hcs
    have hw : CompensatingActions.wasCreatedInSession d = false := by
      unfold CompensatingActions.wasCreatedInSession getBoolVal
      rcases hcs with h | h <;> rw [h] <;> rfl
    simp [CompensatingActions.DeleteBranch, hbn, hw]
  · intro env d b cur locals remotes hbn hcs hp hcur hne hlo hmem hdel hre hrb hrdel
    have hw : CompensatingActions.wasCreatedInSession d = true := by
      unfold CompensatingActions.wasCreatedInSession
      rw [hcs]; rfl
    have hsw : CompensatingActions.switchFromBranchIfNeeded env b d = .ok () := by
      unfold CompensatingActions.switchFromBranchIfNeeded
      rw [hcur]
      simp [hne]
    have hexl : CompensatingActions.branchExistsLocally env b = true := by
      unfold CompensatingActions.branchExistsLocally
      rw [hlo]
      simpa using hmem
    have hdl : CompensatingActions.deleteLocalBranchIfExists env b
        = ([.delLocal b], .ok ()) := by
      unfold CompensatingActions.deleteLocalBranchIfExists
      rw [hexl, hdel]
      simp
    have hexr : CompensatingActions.branchExistsRemotely env b = true := by
      unfold CompensatingActions.branchExistsRemotely
      rw [hre]
      obtain ⟨rb, hrbm, hrbe⟩ := hrb
      exact List.any_eq_true.mpr ⟨rb, hrbm, hrbe⟩
    have hrdone : CompensatingActions.deleteRemoteBranchIfPushed env b d
        = ([.delRemote b], .ok ()) := by
      simp [CompensatingActions.deleteRemoteBranchIfPushed, hp, hexr,
        CompensatingActions.remoteDeleteAttempts, hrdel]
    simp [CompensatingActions.DeleteBranch, hbn, hw, hsw, hdl, hrdone]
  · intro env d b cur locals hbn hcs hp hcur hne hlo hmem hdel
    have hw : CompensatingActions.wasCreatedInSession d = true := by
      unfold CompensatingActions.wasCreatedInSession
      rw [hcs]; rfl
    have hsw : CompensatingActions.switchFromBranchIfNeeded env b d = .ok () := by
      unfold CompensatingActions.switchFromBranchIfNeeded
      rw [hcur]
      simp [hne]
    have hexl : CompensatingActions.branchExistsLocally env b = true := by
      unfold CompensatingActions.branchExistsLocally
      rw [hlo]
      simpa using hmem
    have hdl : CompensatingActions.deleteLocalBranchIfExists env b
        = ([.delLocal b], .ok ()) := by
      unfold CompensatingActions.deleteLocalBranchIfExists
      rw [hexl, hdel]
      simp
    have hpu : (getBoolVal d "pushed").getD false = false := by
      unfold getBoolVal
      rcases hp with h | h <;> rw [h] <;> rfl
    have hrdone : CompensatingActions.deleteRemoteBranchIfPushed env b d
        = ([], .ok ()) := by
      simp [CompensatingActions.deleteRemoteBranchIfPushed, hpu]
    simp [CompensatingActions.DeleteBranch, hbn, hw, hsw, hdl, hrdone]

/-- c6PushedData: created in session, pushed. -/
def c6PushedData : RollbackData :=
  [("branch_name", .vStr "feat"), ("created_in_session", .vBool true),
   ("pushed", .vBool true)]

/-- c6UnpushedData: created in session, `pushed` absent. -/
def c6UnpushedData : RollbackData :=
  [("branch_name", .vStr "feat"), ("created_in_session", .vBool true)]

/-- c6SkipData: not created in session, other fields present. -/
def c6SkipData : RollbackData :=
  [("branch_name", .vStr "feat"), ("created_in_session", .vBool false),
   ("pushed", .vBool true)]

/-- Witness for C6 in the three gating configurations. -/
theorem c6_delete_branch_session_and_pushed_gating_witness :
    CompensatingActions.DeleteBranch stubGitEnv c6SkipData = ([], .ok ()) ∧
    CompensatingActions.DeleteBranch stubGitEnv c6PushedData
      = ([.delLocal "feat", .delRemote "feat"], .ok ()) ∧
    CompensatingActions.DeleteBranch stubGitEnv c6UnpushedData
      = ([.delLocal "feat"], .ok ()) :=
  ⟨c6_delete_branch_session_and_pushed_gating.1 stubGitEnv c6SkipData "feat"
      rfl (Or.inr rfl),
   c6_delete_branch_session_and_pushed_gating.2.1 stubGitEnv c6PushedData "feat" "main"
      ["feat"] ["origin/feat"] rfl rfl rfl rfl (by decide) rfl (by decide) rfl rfl
      ⟨"origin/feat", by decide, by decide⟩ rfl,
   c6_delete_branch_session_and_pushed_gating.2.2 stubGitEnv c6UnpushedData "feat" "main"
      ["feat"] rfl rfl (Or.inl rfl) rfl (by decide) rfl (by decide) rfl⟩

/-- DefaultRetryCount mirrors `constants.go` (production default: 3
retries); go-retry's `WithMaxRetries(n)` allows n+1 total attempts. -/
def DefaultRetryCount : Nat := 3

/-- retryAttempts is the total number of callback attempts per operation. -/
def retryAttempts : Nat := DefaultRetryCount + 1

/-- retryDo models `retry.Do` where every callback error is wrapped
`RetryableError`: run attempts i, i+1, …; return the first success, or the
final attempt's error once the attempt budget is exhausted. -/
def retryDo {α : Type} (f : Nat → Except String α) (i : Nat) : Nat → Except String α
  | 0 => f i
  | 1 => f i
  | n + 2 =>
    match f i with
    | .ok a => .ok a
    | .error _ => retryDo f (i + 1) (n + 1)

/-- SagaStep mirrors the Go struct; `execute` and `compensate` are
attempt-indexed pure outcome functions (the external world may answer
differently on each retry), and a nil `Compensate` is `none`. -/
structure SagaStep where
  name : String
  type : OperationType
  execute : Nat → Except String RollbackData
  compensate : Option (Nat → RollbackData → Except String Unit)

/-- SagaExecutor mirrors the Go struct; the `stateRepo` dependency is
modelled as a pure log of saved state snapshots (`Save` only fails on
lock/filesystem I/O errors, which are outside the model). -/
structure SagaExecutor where
  sessionID : String
  savedStates : List RollbackState
  state : RollbackState
  steps : List SagaStep
  enableRollback : Bool

/-- CompEvent is one compensation invocation observed during rollback:
the compensated step's name and the operation record it was invoked for. -/
abbrev CompEvent := String × OperationRecord

/-- NewSagaExecutor mirrors the Go constructor (the session id is a fresh
UUID there; it is a parameter here). -/
def NewSagaExecutor (sessionID : String) (enableRollback : Bool) : SagaExecutor :=
  { sessionID := sessionID
    savedStates := []
    state := NewRollbackState sessionID
    steps := []
    enableRollback := enableRollback }

namespace SagaExecutor

/-- AddStep appends the step and registers a pending operation record. -/
def AddStep (s : SagaExecutor) (step : SagaStep) : SagaExecutor :=
  { s with steps := s.steps ++ [step], state := s.state.AddOperation step.type }

/-- saveState persists the current state (always succeeds in the model). -/
def saveState (s : SagaExecutor) : SagaExecutor :=
  { s with savedStates := s.state :: s.savedStates }

/-- saveIfEnabled is the Go `if s.enableRollback { s.saveState(ctx) }`
pattern (best-effort saves whose failures are only logged). -/
def saveIfEnabled (s : SagaExecutor) : SagaExecutor :=
  if s.enableRollback then s.saveState else s

/-- findStepByType returns the first registered step of the given type. -/
def findStepByType (s : SagaExecutor) (opType : OperationType) : Option SagaStep :=
  s.steps.find? (fun st => st.type == opType)

/-- executeStep mirrors the Go method: mark running, save, retry the
execute callback, and on success mark completed with the rollback data and
save. -/
def executeStep (s : SagaExecutor) (step : SagaStep) :
    SagaExecutor × Except String Unit :=
  let s1 := saveIfEnabled { s with state := s.state.MarkOperationStarted step.type }
  match retryDo step.execute 0 retryAttempts with
  | .error e => (s1, .error e)
  | .ok d =>
    let s2 := saveIfEnabled
      { s1 with state := s1.state.MarkOperationCompleted step.type d }
    (s2, .ok ())

/-- executeCompensation mirrors the Go method: the compensate callback
under the same bounded-retry policy. -/
def executeCompensation (comp : Nat → RollbackData → Except String Unit)
    (rollbackData : RollbackData) : Except String Unit :=
  retryDo (fun j => comp j rollbackData) 0 retryAttempts

/-- rollbackFailMsg is the `"rollback failed for %s: %w"` error text. -/
def rollbackFailMsg (name err : String) : String :=
  "rollback failed for " ++ name ++ ": " ++ err

/-- stepFailMsg is the `"step \x27%s\x27 failed: %w"` error text. -/
def stepFailMsg (name err : String) : String :=
  "step \x27" ++ name ++ "\x27 failed: " ++ err

/-- stepFailAndRollbackFailMsg is the compound
`"step \x27%s\x27 failed: %w, rollback also failed: %v"` error text. -/
def stepFailAndRollbackFailMsg (name err rbErr : String) : String :=
  "step \x27" ++ name ++ "\x27 failed: " ++ err ++ ", rollback also failed: " ++ rbErr

/-- rollLoop is the body of the Go `rollback` loop over the completed
operations: skip records with no registered step or nil compensation,
retry each compensation, abort on the first compensation that still fails,
save state after each success. The middle component traces the
compensation invocations in order. -/
def rollLoop (s : SagaExecutor) :
    List OperationRecord → SagaExecutor × List CompEvent × Except String Unit
  | [] => (s, [], .ok ())
  | op :: rest =>
    match s.findStepByType op.type with
    | none => rollLoop s rest
    | some step =>
      match step.compensate with
      | none => rollLoop s rest
      | some comp =>
        match executeCompensation comp op.rollbackData with
        | .error e => (s, [(step.name, op)], .error (rollbackFailMsg step.name e))
        | .ok _ =>
          let s1 := saveIfEnabled s
          let res := rollLoop s1 rest
          (res.1, (step.name, op) :: res.2.1, res.2.2)

/-- rollback mirrors the Go method: with no completed operations it
returns success WITHOUT setting `rolled_back`; otherwise it compensates in
reverse completion order and only on full success sets `rolled_back` and
saves. -/
def rollback (s : SagaExecutor) : SagaExecutor × List CompEvent × Except String Unit :=
  let completedOps := s.state.GetCompletedOperations
  if completedOps.isEmpty then (s, [], .ok ())
  else
    let res := rollLoop s completedOps
    match res.2.2 with
    | .error e => (res.1, res.2.1, .error e)
    | .ok _ =>
      let s1 := res.1
      let s2 := saveIfEnabled { s1 with state := { s1.state with status := .rolledBack } }
      (s2, res.2.1, .ok ())

/-- execMain is the Go `Execute` loop over the registered steps: on a step
failure mark it failed, save, and (with rollback enabled) run rollback and
combine errors; on success of all steps mark the workflow completed and
save. -/
def execMain (s : SagaExecutor) :
    List SagaStep → SagaExecutor × List CompEvent × Except String Unit
  | [] =>
    let s1 := saveIfEnabled { s with state := { s.state with status := .completed } }
    (s1, [], .ok ())
  | step :: rest =>
    match s.executeStep step with
    | (s1, .ok _) => execMain s1 rest
    | (s1, .error err) =>
      let s2 := saveIfEnabled { s1 with state := s1.state.MarkOperationFailed step.type err }
      if s2.enableRollback then
        let rr := s2.rollback
        match rr.2.2 with
        | .error rbErr =>
          (rr.1, rr.2.1, .error (stepFailAndRollbackFailMsg step.name err rbErr))
        | .ok _ => (rr.1, rr.2.1, .error (stepFailMsg step.name err))
      else (s2, [], .error (stepFailMsg step.name err))

/-- Execute mirrors the Go method: initial save (cannot fail in the
model), status to `running`, then the step loop. -/
def Execute (s : SagaExecutor) : SagaExecutor × List CompEvent × Except String Unit :=
  let s0 := saveIfEnabled s
  let s1 := { s0 with state := { s0.state with status := .running } }
  execMain s1 s1.steps

end SagaExecutor

/-- buildSaga registers a list of steps on a fresh executor, as the Go
callers do with repeated `AddStep`. -/
def buildSaga (sessionID : String) (enableRollback : Bool)
    (steps : List SagaStep) : SagaExecutor :=
  steps.foldl SagaExecutor.AddStep (NewSagaExecutor sessionID enableRollback)

theorem retryDo_ok {α : Type} (f : Nat → Except String α) (a : α)
    (h : ∀ j, f j = .ok a) : ∀ n i, retryDo f i n = .ok a := by
  intro n
  induction n with
  | zero => intro i; simpa [retryDo] using h i
  | succ m ih =>
    intro i
    cases m with
    | zero => simpa [retryDo] using h i
    | succ k => simp [retryDo, h i]

theorem retryDo_error {α : Type} (f : Nat → Except String α) (e : String)
    (h : ∀ j, f j = .error e) : ∀ n i, retryDo f i n = .error e := by
  intro n
  induction n with
  | zero => intro i; simpa [retryDo] using h i
  | succ m ih =>
    intro i
    cases m with
    | zero => simpa [retryDo] using h i
    | succ k =>
      simp only [retryDo, h i]
      exact ih (i + 1)

@[simp] theorem saveIfEnabled_state (s : SagaExecutor) :
    (SagaExecutor.saveIfEnabled s).state = s.state := by
  unfold SagaExecutor.saveIfEnabled SagaExecutor.saveState
  split <;> rfl

@[simp] theorem saveIfEnabled_steps (s : SagaExecutor) :
    (SagaExecutor.saveIfEnabled s).steps = s.steps := by
  unfold SagaExecutor.saveIfEnabled SagaExecutor.saveState
  split <;> rfl

@[simp] theorem saveIfEnabled_enableRollback (s : SagaExecutor) :
    (SagaExecutor.saveIfEnabled s).enableRollback = s.enableRollback := by
  unfold SagaExecutor.saveIfEnabled SagaExecutor.saveState
  split <;> rfl

/-- completedRec is the record left by a completed step of type t with
rollback-data bag d. -/
def completedRec (t : OperationType) (d : RollbackData) : OperationRecord :=
  { type := t, status := .completed, rollbackData := d, error := "" }

/-- failedRec is the record left by a failed step of type t with error e. -/
def failedRec (t : OperationType) (e : String) : OperationRecord :=
  { type := t, status := .failed, rollbackData := [], error := e }

/-- completedRecs lists the completed records of step/data pairs. -/
def completedRecs (pairs : List (SagaStep × RollbackData)) : List OperationRecord :=
  pairs.map (fun p => completedRec p.1.type p.2)

/-- compEvents lists the compensation events of step/data pairs. -/
def compEvents (pairs : List (SagaStep × RollbackData)) : List CompEvent :=
  pairs.map (fun p => (p.1.name, completedRec p.1.type p.2))

/-- StepOk: the step's execute callback succeeds with data d on every
attempt. -/
def StepOk (st : SagaStep) (d : RollbackData) : Prop :=
  ∀ j, st.execute j = .ok d

/-- StepFails: the step's execute callback fails with error e on every
attempt (so its retries are exhausted). -/
def StepFails (st : SagaStep) (e : String) : Prop :=
  ∀ j, st.execute j = .error e

/-- CompOk: the step has a registered compensation that succeeds on every
attempt and input. -/
def CompOk (st : SagaStep) : Prop :=
  ∃ g, st.compensate = some g ∧ ∀ j d, g j d = .ok ()

theorem markFirst_append_false (p : OperationRecord → Bool)
    (f : OperationRecord → OperationRecord) :
    ∀ l1 l2, (∀ r ∈ l1, p r = false) →
      markFirst p f (l1 ++ l2) = l1 ++ markFirst p f l2 := by
  intro l1
  induction l1 with
  | nil => intro l2 _; rfl
  | cons a rest ih =>
    intro l2 h
    have ha : p a = false := h a (List.mem_cons_self a rest)
    simp only [List.cons_append, markFirst, ha, Bool.false_eq_true, if_false,
      List.cons.injEq, true_and]
    exact ih l2 fun r hr => h r (List.mem_cons_of_mem a hr)

theorem pendPred_false_of_completed (t : OperationType) (r : OperationRecord)
    (h : r.status = .completed) :
    (r.type == t && r.status == OperationStatus.pending) = false := by
  rw [h]
  simp

theorem runPred_false_of_completed (t : OperationType) (r : OperationRecord)
    (h : r.status = .completed) :
    (r.type == t && r.status == OperationStatus.running) = false := by
  rw [h]
  simp

theorem markStarted_eq (rs : RollbackState) (t : OperationType)
    (done tailOps : List OperationRecord)
    (hdone : ∀ r ∈ done, r.status = .completed)
    (hops : rs.operations = done ++ pendingRec t :: tailOps) :
    rs.MarkOperationStarted t = { rs with operations := done ++ runningRec t :: tailOps } := by
  unfold RollbackState.MarkOperationStarted
  have hM : markFirst (fun r => r.type == t && r.status == OperationStatus.pending)
      (fun r => { r with status := .running }) rs.operations
      = done ++ runningRec t :: tailOps := by
    rw [hops,
      markFirst_append_false _ _ done _ (fun r hr => pendPred_false_of_completed t r (hdone r hr))]
    simp [markFirst, pendingRec, runningRec]
  rw [hM]

theorem markCompleted_eq (rs : RollbackState) (t : OperationType) (d : RollbackData)
    (done tailOps : List OperationRecord)
    (hdone : ∀ r ∈ done, r.status = .completed)
    (hops : rs.operations = done ++ runningRec t :: tailOps) :
    rs.MarkOperationCompleted t d
      = { rs with operations := done ++ completedRec t d :: tailOps } := by
  unfold RollbackState.MarkOperationCompleted
  have hM : markFirst (fun r => r.type == t && r.status == OperationStatus.running)
      (fun r => { r with status := .completed, rollbackData := d }) rs.operations
      = done ++ completedRec t d :: tailOps := by
    rw [hops,
      markFirst_append_false _ _ done _ (fun r hr => runPred_false_of_completed t r (hdone r hr))]
    simp [markFirst, runningRec, completedRec]
  rw [hM]

theorem markFailed_eq (rs : RollbackState) (t : OperationType) (e : String)
    (done tailOps : List OperationRecord)
    (hdone : ∀ r ∈ done, r.status = .completed)
    (hops : rs.operations = done ++ runningRec t :: tailOps) :
    rs.MarkOperationFailed t e
      = { rs with
          operations := done ++ failedRec t e :: tailOps
          status := .failed
          error := e } := by
  unfold RollbackState.MarkOperationFailed
  have hM : markFirst (fun r => r.type == t && r.status == OperationStatus.running)
      (fun r => { r with status := .failed, error := e }) rs.operations
      = done ++ failedRec t e :: tailOps := by
    rw [hops,
      markFirst_append_false _ _ done _ (fun r hr => runPred_false_of_completed t r (hdone r hr))]
    simp [markFirst, runningRec, failedRec]
  rw [hM]

theorem getCompleted_shape (rs : RollbackState) (cs os : List OperationRecord)
    (hops : rs.operations = cs ++ os)
    (hcs : ∀ r ∈ cs, r.status = .completed)
    (hos : ∀ r ∈ os, r.status ≠ .completed) :
    rs.GetCompletedOperations = cs.reverse := by
  unfold RollbackState.GetCompletedOperations
  rw [hops, List.reverse_append, List.filter_append]
  have h1 : os.reverse.filter (fun op => op.status = OperationStatus.completed) = [] := by
    apply List.filter_eq_nil.mpr
    intro r hr
    simpa using hos r (List.mem_reverse.mp hr)
  have h2 : cs.reverse.filter (fun op => op.status = OperationStatus.completed)
      = cs.reverse := by
    apply List.filter_eq_self.mpr
    intro r hr
    simpa using hcs r (List.mem_reverse.mp hr)
  rw [h1, h2, List.nil_append]

theorem find_step_of_nodup :
    ∀ (steps : List SagaStep) (st : SagaStep), st ∈ steps →
      (steps.map (fun x => x.type)).Nodup →
      steps.find? (fun x => x.type == st.type) = some st := by
  intro steps
  induction steps with
  | nil => intro st h; cases h
  | cons a rest ih =>
    intro st hmem hnd
    rcases List.mem_cons.mp hmem with h | h
    · subst h
      simp [List.find?]
    · have hne : a.type ≠ st.type := by
        intro hcon
        have : st.type ∈ rest.map (fun x => x.type) := List.mem_map_of_mem _ h
        rw [List.map_cons] at hnd
        exact (List.nodup_cons.mp hnd).1 (hcon ▸ this)
      have hbeq : (a.type == st.type) = false := by
        exact beq_eq_false_iff_ne.mpr hne
      rw [List.find?]
      rw [hbeq]
      exact ih st h (by rw [List.map_cons] at hnd; exact (List.nodup_cons.mp hnd).2)

theorem executeStep_ok (s : SagaExecutor) (step : SagaStep) (d : RollbackData)
    (done tailOps : List OperationRecord)
    (hok : StepOk step d)
    (hdone : ∀ r ∈ done, r.status = .completed)
    (hops : s.state.operations = done ++ pendingRec step.type :: tailOps) :
    ∃ s1, s.executeStep step = (s1, .ok ()) ∧
      s1.state = { s.state with operations := done ++ completedRec step.type d :: tailOps } ∧
      s1.steps = s.steps ∧ s1.enableRollback = s.enableRollback := by
  unfold SagaExecutor.executeStep
  rw [retryDo_ok step.execute d hok retryAttempts 0]
  refine ⟨_, rfl, ?_, by simp, by simp⟩
  simp only [saveIfEnabled_state]
  rw [markStarted_eq s.state step.type done tailOps hdone hops]
  rw [markCompleted_eq _ step.type d done tailOps hdone rfl]

theorem executeStep_fail (s : SagaExecutor) (step : SagaStep) (e : String)
    (done tailOps : List OperationRecord)
    (hf : StepFails step e)
    (hdone : ∀ r ∈ done, r.status = .completed)
    (hops : s.state.operations = done ++ pendingRec step.type :: tailOps) :
    ∃ s1, s.executeStep step = (s1, .error e) ∧
      s1.state = { s.state with operations := done ++ runningRec step.type :: tailOps } ∧
      s1.steps = s.steps ∧ s1.enableRollback = s.enableRollback := by
  unfold SagaExecutor.executeStep
  rw [retryDo_error step.execute e hf retryAttempts 0]
  refine ⟨_, rfl, ?_, by simp, by simp⟩
  simp only [saveIfEnabled_state]
  rw [markStarted_eq s.state step.type done tailOps hdone hops]

theorem execMain_nil (s : SagaExecutor) :
    ∃ s1, SagaExecutor.execMain s [] = (s1, [], .ok ()) ∧
      s1.state = { s.state with status := .completed } := by
  refine ⟨_, rfl, ?_⟩
  simp only [saveIfEnabled_state]

theorem execMain_ok_phase :
    ∀ (g : List SagaStep) (ds : List RollbackData) (s : SagaExecutor)
      (done tailOps : List OperationRecord) (steps2 : List SagaStep),
      List.Forall₂ StepOk g ds →
      (∀ r ∈ done, r.status = .completed) →
      s.state.operations = done ++ g.map (fun st => pendingRec st.type) ++ tailOps →
      ∃ s', SagaExecutor.execMain s (g ++ steps2) = SagaExecutor.execMain s' steps2 ∧
        s'.state = { s.state with operations := done ++ completedRecs (g.zip ds) ++ tailOps } ∧
        s'.steps = s.steps ∧ s'.enableRollback = s.enableRollback := by
  intro g
  induction g with
  | nil =>
    intro ds s done tailOps steps2 hfa hdone hops
    cases hfa
    refine ⟨s, by simp, ?_, rfl, rfl⟩
    have hx : done ++ completedRecs (List.zip [] []) ++ tailOps = s.state.operations := by
      simpa [completedRecs] using hops.symm
    rw [hx]
  | cons st restG ih =>
    intro ds s done tailOps steps2 hfa hdone hops
    cases hfa with
    | cons hok hfa2 =>
      rename_i d ds2
      obtain ⟨s1, hstep, hst1, hsteps1, hen1⟩ :=
        executeStep_ok s st d done (restG.map (fun x => pendingRec x.type) ++ tailOps) hok
          hdone (by simpa [List.append_assoc] using hops)
      have hred : SagaExecutor.execMain s ((st :: restG) ++ steps2)
          = SagaExecutor.execMain s1 (restG ++ steps2) := by
        show SagaExecutor.execMain s (st :: (restG ++ steps2)) = _
        rw [SagaExecutor.execMain, hstep]
      have hdone2 : ∀ r ∈ done ++ [completedRec st.type d], r.status = .completed := by
        intro r hr
        rcases List.mem_append.mp hr with h | h
        · exact hdone r h
        · rw [List.mem_singleton.mp h]; rfl
      obtain ⟨s', h1, h2, h3, h4⟩ := ih ds2 s1 (done ++ [completedRec st.type d]) tailOps
        steps2 hfa2 hdone2 (by rw [hst1]; simp [List.append_assoc])
      refine ⟨s', hred.trans h1, ?_, h3.trans hsteps1, h4.trans hen1⟩
      rw [h2, hst1]
      simp [completedRecs, List.append_assoc]

theorem findStepByType_congr (s1 s2 : SagaExecutor) (t : OperationType)
    (h : s1.steps = s2.steps) : s1.findStepByType t = s2.findStepByType t := by
  unfold SagaExecutor.findStepByType
  rw [h]

theorem rollLoop_ok_phase :
    ∀ (pairs : List (SagaStep × RollbackData)) (s : SagaExecutor)
      (restRecs : List OperationRecord),
      (∀ p ∈ pairs, s.findStepByType p.1.type = some p.1) →
      (∀ p ∈ pairs, CompOk p.1) →
      ∃ s', SagaExecutor.rollLoop s (completedRecs pairs ++ restRecs)
          = ((SagaExecutor.rollLoop s' restRecs).1,
             compEvents pairs ++ (SagaExecutor.rollLoop s' restRecs).2.1,
             (SagaExecutor.rollLoop s' restRecs).2.2) ∧
        s'.state = s.state ∧ s'.steps = s.steps ∧ s'.enableRollback = s.enableRollback := by
  intro pairs
  induction pairs with
  | nil =>
    intro s restRecs _ _
    exact ⟨s, by simp [completedRecs, compEvents], rfl, rfl, rfl⟩
  | cons p rest ih =>
    intro s restRecs hfind hcomp
    obtain ⟨g, hg, hgok⟩ := hcomp p (List.mem_cons_self p rest)
    have hfp : s.findStepByType p.1.type = some p.1 := hfind p (List.mem_cons_self p rest)
    have hcompok : SagaExecutor.executeCompensation g p.2 = .ok () :=
      retryDo_ok _ _ (fun j => hgok j p.2) retryAttempts 0
    obtain ⟨s', hroll, hst, hsteps, hen⟩ := ih (SagaExecutor.saveIfEnabled s) restRecs
      (fun q hq => (findStepByType_congr _ _ _ (saveIfEnabled_steps s)).trans
        (hfind q (List.mem_cons_of_mem p hq)))
      (fun q hq => hcomp q (List.mem_cons_of_mem p hq))
    refine ⟨s', ?_, hst.trans (saveIfEnabled_state s),
      hsteps.trans (saveIfEnabled_steps s), hen.trans (saveIfEnabled_enableRollback s)⟩
    show SagaExecutor.rollLoop s
        (completedRec p.1.type p.2 :: (completedRecs rest ++ restRecs)) = _
    rw [SagaExecutor.rollLoop]
    have hty : (completedRec p.1.type p.2).type = p.1.type := rfl
    have hrb : (completedRec p.1.type p.2).rollbackData = p.2 := rfl
    rw [hty, hfp]
    simp only [hg, hrb, hcompok, hroll, compEvents, List.map_cons, List.cons_append]

theorem rollLoop_fail_head (s : SagaExecutor) (failRec : OperationRecord)
    (stF : SagaStep) (g : Nat → RollbackData → Except String Unit) (ce : String)
    (afterRecs : List OperationRecord)
    (hfind : s.findStepByType failRec.type = some stF)
    (hg : stF.compensate = some g)
    (hgf : ∀ j d, g j d = .error ce) :
    SagaExecutor.rollLoop s (failRec :: afterRecs)
      = (s, [(stF.name, failRec)],
         .error (SagaExecutor.rollbackFailMsg stF.name ce)) := by
  have hcompf : SagaExecutor.executeCompensation g failRec.rollbackData = .error ce :=
    retryDo_error _ _ (fun j => hgf j _) retryAttempts 0
  rw [SagaExecutor.rollLoop, hfind]
  simp only [hg, hcompf]

theorem rollback_empty (s : SagaExecutor)
    (h : s.state.GetCompletedOperations = []) :
    s.rollback = (s, [], .ok ()) := by
  unfold SagaExecutor.rollback
  rw [h]
  rfl

theorem rollback_all_ok (pairs : List (SagaStep × RollbackData)) (s : SagaExecutor)
    (hne : pairs ≠ [])
    (hcompleted : s.state.GetCompletedOperations = completedRecs pairs)
    (hfind : ∀ p ∈ pairs, s.findStepByType p.1.type = some p.1)
    (hcomp : ∀ p ∈ pairs, CompOk p.1) :
    ∃ s', s.rollback = (s', compEvents pairs, .ok ()) ∧
      s'.state = { s.state with status := .rolledBack } := by
  obtain ⟨s1, hroll, hst, hsteps, hen⟩ := rollLoop_ok_phase pairs s [] hfind hcomp
  rw [List.append_nil] at hroll
  have hroll2 : SagaExecutor.rollLoop s (completedRecs pairs)
      = (s1, compEvents pairs, .ok ()) := by
    rw [hroll]
    simp [SagaExecutor.rollLoop]
  have hnf : (completedRecs pairs).isEmpty = false := by
    cases pairs with
    | nil => exact absurd rfl hne
    | cons a b => rfl
  have hred : s.rollback
      = (SagaExecutor.saveIfEnabled
          { s1 with state := { s1.state with status := .rolledBack } },
         compEvents pairs, .ok ()) := by
    unfold SagaExecutor.rollback
    rw [hcompleted]
    simp only [hnf, Bool.false_eq_true, if_false, hroll2]
  refine ⟨_, hred, ?_⟩
  simp only [saveIfEnabled_state]
  rw [hst]

theorem addStep_foldl :
    ∀ (steps : List SagaStep) (s : SagaExecutor),
      (steps.foldl SagaExecutor.AddStep s).steps = s.steps ++ steps ∧
      (steps.foldl SagaExecutor.AddStep s).state
        = { s.state with operations :=
            s.state.operations ++ steps.map (fun st => pendingRec st.type) } ∧
      (steps.foldl SagaExecutor.AddStep s).enableRollback = s.enableRollback := by
  intro steps
  induction steps with
  | nil =>
    intro s
    refine ⟨by simp, ?_, rfl⟩
    simp
  | cons a rest ih =>
    intro s
    have h := ih (SagaExecutor.AddStep s a)
    refine ⟨?_, ?_, ?_⟩
    · rw [List.foldl_cons, h.1]
      simp [SagaExecutor.AddStep, List.append_assoc]
    · rw [List.foldl_cons, h.2.1]
      simp [SagaExecutor.AddStep, RollbackState.AddOperation, List.append_assoc]
    · rw [List.foldl_cons, h.2.2]
      rfl

theorem buildSaga_fields (sid : String) (b : Bool) (steps : List SagaStep) :
    (buildSaga sid b steps).steps = steps ∧
    (buildSaga sid b steps).state
      = { NewRollbackState sid with
          operations := steps.map (fun st => pendingRec st.type) } ∧
    (buildSaga sid b steps).enableRollback = b := by
  have h := addStep_foldl steps (NewSagaExecutor sid b)
  refine ⟨?_, ?_, ?_⟩
  · rw [show buildSaga sid b steps = steps.foldl SagaExecutor.AddStep (NewSagaExecutor sid b) from rfl,
      h.1]
    rfl
  · rw [show buildSaga sid b steps = steps.foldl SagaExecutor.AddStep (NewSagaExecutor sid b) from rfl,
      h.2.1]
    rfl
  · rw [show buildSaga sid b steps = steps.foldl SagaExecutor.AddStep (NewSagaExecutor sid b) from rfl,
      h.2.2]
    rfl

/-- C2: when every step's execute callback succeeds, Execute returns no
error, the final workflow status is `completed`, and
`GetCompletedOperations` returns one completed record per registered step
in exactly reverse registration order. -/
theorem c2_all_success_completed_reverse_order :
    ∀ (sid : String) (enab : Bool) (steps : List SagaStep) (ds : List RollbackData),
      List.Forall₂ StepOk steps ds →
      (buildSaga sid enab steps).Execute.2.2 = .ok () ∧
      (buildSaga sid enab steps).Execute.1.state.status = .completed ∧
      (buildSaga sid enab steps).Execute.1.state.GetCompletedOperations
        = (completedRecs (steps.zip ds)).reverse := by
  intro sid enab steps ds hfa
  obtain ⟨hsteps, hstate, hen⟩ := buildSaga_fields sid enab steps
  obtain ⟨s', hphase, hst', hsteps', hen'⟩ :=
    execMain_ok_phase steps ds
      { SagaExecutor.saveIfEnabled (buildSaga sid enab steps) with
        state := { (SagaExecutor.saveIfEnabled (buildSaga sid enab steps)).state with
                   status := .running } }
      [] [] [] hfa (by intro r hr; cases hr) (by simp [hstate])
  rw [List.append_nil] at hphase
  obtain ⟨s2, hnil, hst2⟩ := execMain_nil s'
  have hEsteps : ({ SagaExecutor.saveIfEnabled (buildSaga sid enab steps) with
      state := { (SagaExecutor.saveIfEnabled (buildSaga sid enab steps)).state with
                 status := .running } } : SagaExecutor).steps = steps := by
    simp [hsteps]
  have hmain : (buildSaga sid enab steps).Execute = (s2, [], .ok ()) := by
    show SagaExecutor.execMain
      { SagaExecutor.saveIfEnabled (buildSaga sid enab steps) with
        state := { (SagaExecutor.saveIfEnabled (buildSaga sid enab steps)).state with
                   status := .running } }
      ({ SagaExecutor.saveIfEnabled (buildSaga sid enab steps) with
        state := { (SagaExecutor.saveIfEnabled (buildSaga sid enab steps)).state with
                   status := .running } } : SagaExecutor).steps = _
    rw [hEsteps, hphase, hnil]
  refine ⟨by rw [hmain], ?_, ?_⟩
  · rw [hmain, hst2]
  · rw [hmain]
    apply getCompleted_shape s2.state (completedRecs (steps.zip ds)) []
    · rw [hst2]
      show s'.state.operations = completedRecs (steps.zip ds) ++ []
      rw [hst']
      simp
    · intro r hr
      simp only [completedRecs, List.mem_map] at hr
      obtain ⟨p, _, hp⟩ := hr
      rw [← hp]
      rfl
    · intro r hr
      cases hr

/-- w2Step succeeds on every attempt with a one-entry rollback-data bag. -/
def w2Step : SagaStep :=
  { name := "s0", type := "t0", execute := fun _ => .ok [("k", GoVal.vStr "v")],
    compensate := some (fun _ _ => .ok ()) }

/-- Witness for C2 at a concrete one-step saga. -/
theorem c2_all_success_completed_reverse_order_witness :
    (buildSaga "w2" true [w2Step]).Execute.2.2 = .ok () ∧
    (buildSaga "w2" true [w2Step]).Execute.1.state.status = .completed ∧
    (buildSaga "w2" true [w2Step]).Execute.1.state.GetCompletedOperations
      = (completedRecs ([w2Step].zip [[("k", GoVal.vStr "v")]])).reverse :=
  c2_all_success_completed_reverse_order "w2" true [w2Step] [[("k", GoVal.vStr "v")]]
    (List.Forall₂.cons (fun j => rfl) List.Forall₂.nil)

/-- rollbackWrap is the error-combining tail of the Go `Execute` failure
branch: run rollback and either wrap the step failure alone or combine it
with the rollback failure. -/
def rollbackWrap (name e : String) (s2 : SagaExecutor) :
    SagaExecutor × List CompEvent × Except String Unit :=
  let rr := s2.rollback
  match rr.2.2 with
  | .error rbErr =>
    (rr.1, rr.2.1, .error (SagaExecutor.stepFailAndRollbackFailMsg name e rbErr))
  | .ok _ => (rr.1, rr.2.1, .error (SagaExecutor.stepFailMsg name e))

theorem completedRecs_reverse (l : List (SagaStep × RollbackData)) :
    completedRecs l.reverse = (completedRecs l).reverse := by
  simp [completedRecs]

theorem execute_fail_master
    (sid : String) (good : List SagaStep) (ds : List RollbackData)
    (failStep : SagaStep) (rest : List SagaStep) (e : String)
    (hfa : List.Forall₂ StepOk good ds)
    (hfail : StepFails failStep e) :
    ∃ s2, (buildSaga sid true (good ++ failStep :: rest)).Execute
        = rollbackWrap failStep.name e s2 ∧
      s2.state.operations = completedRecs (good.zip ds)
        ++ failedRec failStep.type e :: rest.map (fun st => pendingRec st.type) ∧
      s2.state.status = .failed ∧
      s2.steps = good ++ failStep :: rest ∧
      s2.enableRollback = true ∧
      s2.state.GetCompletedOperations = completedRecs ((good.zip ds).reverse) := by
  obtain ⟨hsteps, hstate, hen⟩ := buildSaga_fields sid true (good ++ failStep :: rest)
  obtain ⟨s', hphase, hst', hsteps', hen'⟩ :=
    execMain_ok_phase good ds
      { SagaExecutor.saveIfEnabled (buildSaga sid true (good ++ failStep :: rest)) with
        state := { (SagaExecutor.saveIfEnabled
            (buildSaga sid true (good ++ failStep :: rest))).state with
          status := .running } }
      [] ((failStep :: rest).map (fun st => pendingRec st.type)) (failStep :: rest)
      hfa (by intro r hr; cases hr) (by simp [hstate])
  have hdone : ∀ r ∈ completedRecs (good.zip ds), r.status = .completed := by
    intro r hr
    simp only [completedRecs, List.mem_map] at hr
    obtain ⟨p, _, hp⟩ := hr
    rw [← hp]
    rfl
  obtain ⟨s1f, hstepf, hst1f, hsteps1f, hen1f⟩ :=
    executeStep_fail s' failStep e (completedRecs (good.zip ds))
      (rest.map (fun st => pendingRec st.type)) hfail hdone
      (by rw [hst']; simp)
  have henS2 : (SagaExecutor.saveIfEnabled
      { s1f with state := s1f.state.MarkOperationFailed failStep.type e }).enableRollback
      = true := by
    simp [hen1f, hen', hen]
  have hred : SagaExecutor.execMain s' (failStep :: rest)
      = rollbackWrap failStep.name e
        (SagaExecutor.saveIfEnabled
          { s1f with state := s1f.state.MarkOperationFailed failStep.type e }) := by
    rw [SagaExecutor.execMain, hstepf]
    simp only [henS2, if_true]
    rfl
  have hEsteps : ({ SagaExecutor.saveIfEnabled
      (buildSaga sid true (good ++ failStep :: rest)) with
      state := { (SagaExecutor.saveIfEnabled
          (buildSaga sid true (good ++ failStep :: rest))).state with
        status := .running } } : SagaExecutor).steps = good ++ failStep :: rest := by
    simp [hsteps]
  have hmain : (buildSaga sid true (good ++ failStep :: rest)).Execute
      = rollbackWrap failStep.name e
        (SagaExecutor.saveIfEnabled
          { s1f with state := s1f.state.MarkOperationFailed failStep.type e }) := by
    show SagaExecutor.execMain
      { SagaExecutor.saveIfEnabled (buildSaga sid true (good ++ failStep :: rest)) with
        state := { (SagaExecutor.saveIfEnabled
            (buildSaga sid true (good ++ failStep :: rest))).state with
          status := .running } }
      ({ SagaExecutor.saveIfEnabled (buildSaga sid true (good ++ failStep :: rest)) with
        state := { (SagaExecutor.saveIfEnabled
            (buildSaga sid true (good ++ failStep :: rest))).state with
          status := .running } } : SagaExecutor).steps = _
    rw [hEsteps, hphase, hred]
  have hmf : s1f.state.MarkOperationFailed failStep.type e
      = { s1f.state with
          operations := completedRecs (good.zip ds)
            ++ failedRec failStep.type e :: rest.map (fun st => pendingRec st.type)
          status := .failed
          error := e } :=
    markFailed_eq s1f.state failStep.type e _ _ hdone (by rw [hst1f])
  refine ⟨_, hmain, ?_, ?_, ?_, ?_, ?_⟩
  · simp only [saveIfEnabled_state]
    rw [hmf]
  · simp only [saveIfEnabled_state]
    rw [hmf]
  · simp only [saveIfEnabled_steps]
    show s1f.steps = _
    rw [hsteps1f, hsteps', hEsteps]
  · exact henS2
  · rw [completedRecs_reverse]
    apply getCompleted_shape _ (completedRecs (good.zip ds))
      (failedRec failStep.type e :: rest.map (fun st => pendingRec st.type))
    · simp only [saveIfEnabled_state]
      rw [hmf]
    · exact hdone
    · intro r hr
      rcases List.mem_cons.mp hr with h | h
      · rw [h]; intro hcon; cases hcon
      · simp only [List.mem_map] at h
        obtain ⟨st, _, hp⟩ := h
        rw [← hp]
        intro hcon
        cases hcon

/-- c1FailStep is a step whose execute callback fails on every attempt. -/
def c1FailStep : SagaStep :=
  { name := "s1", type := "t1", execute := fun _ => .error "boom",
    compensate := some (fun _ _ => .ok ()) }

/-- C1 counterexample: for k = 1 (the very first step exhausts its
retries, rollback enabled) there are no completed operations, the Go
`rollback` returns early WITHOUT setting `rolled_back`, and the final
workflow status stays `failed` — contradicting the claim that the final
status is always `rolled_back`. -/
theorem c1_k1_status_stays_failed_counterexample :
    (buildSaga "cex" true [c1FailStep]).Execute.1.state.status = .failed ∧
    ¬((buildSaga "cex" true [c1FailStep]).Execute.1.state.status = .rolledBack) ∧
    (buildSaga "cex" true [c1FailStep]).Execute.2.1 = [] := by
  refine ⟨by decide, by decide, by decide⟩

/-- C1 (amended): when step k (1-indexed, k ≥ 2) exhausts its retries with
rollback enabled (distinct step types, steps 1..k-1 succeeding, their
compensations registered and succeeding), Execute invokes compensation
exactly for the completed records of steps 1..k-1 in order k-1, …, 1,
never for a pending or failed record, and the final workflow status is
`rolled_back`; for k = 1 no compensation is invoked and the status remains
`failed`. -/
theorem c1_rollback_compensates_completed_in_reverse :
    ∀ (sid : String) (good : List SagaStep) (ds : List RollbackData)
      (failStep : SagaStep) (rest : List SagaStep) (e : String),
      good ≠ [] →
      List.Forall₂ StepOk good ds →
      StepFails failStep e →
      (((good ++ failStep :: rest)).map (fun st => st.type)).Nodup →
      (∀ st ∈ good, CompOk st) →
      (buildSaga sid true (good ++ failStep :: rest)).Execute.2.1
          = compEvents ((good.zip ds).reverse) ∧
      (∀ ev ∈ (buildSaga sid true (good ++ failStep :: rest)).Execute.2.1,
          ev.2.status = .completed) ∧
      (buildSaga sid true (good ++ failStep :: rest)).Execute.1.state.status
          = .rolledBack ∧
      (buildSaga sid true (good ++ failStep :: rest)).Execute.2.2
          = .error (SagaExecutor.stepFailMsg failStep.name e) := by
  intro sid good ds failStep rest e hne hfa hfail hnd hcomp
  obtain ⟨s2, hmain, hops, hstatus, hsteps, hen, hcompleted⟩ :=
    execute_fail_master sid good ds failStep rest e hfa hfail
  have hpairs_ne : (good.zip ds).reverse ≠ [] := by
    have hlen := List.Forall₂.length_eq hfa
    intro hcon
    apply hne
    have hz : good.zip ds = [] := by
      rw [← List.reverse_reverse (good.zip ds), hcon]
      rfl
    cases good with
    | nil => rfl
    | cons a b =>
      cases ds with
      | nil => cases hlen
      | cons c d => cases hz
  have hfind : ∀ p ∈ (good.zip ds).reverse, s2.findStepByType p.1.type = some p.1 := by
    intro p hp
    have hmem : p.1 ∈ good := (List.of_mem_zip (List.mem_reverse.mp hp)).1
    unfold SagaExecutor.findStepByType
    rw [hsteps]
    exact find_step_of_nodup (good ++ failStep :: rest) p.1
      (List.mem_append.mpr (Or.inl hmem)) hnd
  have hcompok : ∀ p ∈ (good.zip ds).reverse, CompOk p.1 := fun p hp =>
    hcomp p.1 (List.of_mem_zip (List.mem_reverse.mp hp)).1
  obtain ⟨sr, hrb, hrbstate⟩ :=
    rollback_all_ok ((good.zip ds).reverse) s2 hpairs_ne hcompleted hfind hcompok
  have hwrap : rollbackWrap failStep.name e s2
      = (sr, compEvents ((good.zip ds).reverse),
         .error (SagaExecutor.stepFailMsg failStep.name e)) := by
    unfold rollbackWrap
    rw [hrb]
  refine ⟨?_, ?_, ?_, ?_⟩
  · rw [hmain, hwrap]
  · rw [hmain, hwrap]
    intro ev hev
    simp only [compEvents, List.mem_map] at hev
    obtain ⟨p, _, hp⟩ := hev
    rw [← hp]
    rfl
  · rw [hmain, hwrap]
    show sr.state.status = .rolledBack
    rw [hrbstate]
  · rw [hmain, hwrap]

/-- w1Good is a succeeding step with a succeeding compensation. -/
def w1Good : SagaStep :=
  { name := "g1", type := "tg", execute := fun _ => .ok [("x", GoVal.vBool true)],
    compensate := some (fun _ _ => .ok ()) }

/-- w1Fail is a step failing on every attempt. -/
def w1Fail : SagaStep :=
  { name := "f1", type := "tf", execute := fun _ => .error "bang",
    compensate := some (fun _ _ => .ok ()) }

/-- Witness for C1 (amended) at a concrete two-step saga. -/
theorem c1_rollback_compensates_completed_in_reverse_witness :
    (buildSaga "w1" true [w1Good, w1Fail]).Execute.2.1
        = compEvents (([w1Good].zip [[("x", GoVal.vBool true)]]).reverse) ∧
    (∀ ev ∈ (buildSaga "w1" true [w1Good, w1Fail]).Execute.2.1,
        ev.2.status = .completed) ∧
    (buildSaga "w1" true [w1Good, w1Fail]).Execute.1.state.status = .rolledBack ∧
    (buildSaga "w1" true [w1Good, w1Fail]).Execute.2.2
        = .error (SagaExecutor.stepFailMsg w1Fail.name "bang") :=
  c1_rollback_compensates_completed_in_reverse "w1" [w1Good]
    [[("x", GoVal.vBool true)]] w1Fail [] "bang"
    (by intro h; cases h)
    (List.Forall₂.cons (fun j => rfl) List.Forall₂.nil)
    (fun j => rfl)
    (by decide)
    (by
      intro st hst
      rw [List.mem_singleton.mp hst]
      exact ⟨fun _ _ => .ok (), rfl, fun j d => rfl⟩)

/-- C7: when a step exhausts its retries with rollback enabled, Execute
returns a compound error naming both the step failure and the rollback
failure if the automatic rollback fails, and returns the step failure
wrapped with the step's name if the rollback succeeds. -/
theorem c7_step_failure_error_composition :
    (∀ (sid : String) (good : List SagaStep) (ds : List RollbackData)
        (lastG : SagaStep) (dL : RollbackData) (failStep : SagaStep)
        (rest : List SagaStep) (e ce : String)
        (gL : Nat → RollbackData → Except String Unit),
        List.Forall₂ StepOk (good ++ [lastG]) (ds ++ [dL]) →
        StepFails failStep e →
        (((good ++ [lastG]) ++ failStep :: rest).map (fun st => st.type)).Nodup →
        lastG.compensate = some gL →
        (∀ j d, gL j d = .error ce) →
        (buildSaga sid true ((good ++ [lastG]) ++ failStep :: rest)).Execute.2.2
          = .error (SagaExecutor.stepFailAndRollbackFailMsg failStep.name e
              (SagaExecutor.rollbackFailMsg lastG.name ce))) ∧
    (∀ (sid : String) (good : List SagaStep) (ds : List RollbackData)
        (failStep : SagaStep) (rest : List SagaStep) (e : String),
        List.Forall₂ StepOk good ds →
        StepFails failStep e →
        ((good ++ failStep :: rest).map (fun st => st.type)).Nodup →
        (∀ st ∈ good, CompOk st) →
        (buildSaga sid true (good ++ failStep :: rest)).Execute.2.2
          = .error (SagaExecutor.stepFailMsg failStep.name e)) := by
  constructor
  · intro sid good ds lastG dL failStep rest e ce gL hfa hfail hnd hgL hgLf
    obtain ⟨s2, hmain, hops, hstatus, hsteps, hen, hcompleted⟩ :=
      execute_fail_master sid (good ++ [lastG]) (ds ++ [dL]) failStep rest e hfa hfail
    have hlen : good.length = ds.length := by
      have h := List.Forall₂.length_eq hfa
      simpa using h
    have hzip : (good ++ [lastG]).zip (ds ++ [dL]) = good.zip ds ++ [(lastG, dL)] := by
      rw [List.zip_append hlen]
      rfl
    have hcompleted2 : s2.state.GetCompletedOperations
        = completedRec lastG.type dL :: completedRecs ((good.zip ds).reverse) := by
      rw [hcompleted, hzip]
      simp [completedRecs]
    have hfindL : s2.findStepByType (completedRec lastG.type dL).type = some lastG := by
      show s2.findStepByType lastG.type = some lastG
      unfold SagaExecutor.findStepByType
      rw [hsteps]
      exact find_step_of_nodup _ lastG (by simp) hnd
    have hloop := rollLoop_fail_head s2 (completedRec lastG.type dL) lastG gL ce
      (completedRecs ((good.zip ds).reverse)) hfindL hgL hgLf
    have hrb : s2.rollback
        = (s2, [(lastG.name, completedRec lastG.type dL)],
           .error (SagaExecutor.rollbackFailMsg lastG.name ce)) := by
      unfold SagaExecutor.rollback
      rw [hcompleted2]
      simp only [List.isEmpty_cons, Bool.false_eq_true, if_false, hloop]
    have hwrap : rollbackWrap failStep.name e s2
        = (s2, [(lastG.name, completedRec lastG.type dL)],
           .error (SagaExecutor.stepFailAndRollbackFailMsg failStep.name e
             (SagaExecutor.rollbackFailMsg lastG.name ce))) := by
      unfold rollbackWrap
      rw [hrb]
    rw [hmain, hwrap]
  · intro sid good ds failStep rest e hfa hfail hnd hcomp
    obtain ⟨s2, hmain, hops, hstatus, hsteps, hen, hcompleted⟩ :=
      execute_fail_master sid good ds failStep rest e hfa hfail
    by_cases hz : (good.zip ds).reverse = []
    · have hcompleted0 : s2.state.GetCompletedOperations = [] := by
        rw [hcompleted, hz]
        rfl
      have hrb := rollback_empty s2 hcompleted0
      have hwrap : rollbackWrap failStep.name e s2
          = (s2, [], .error (SagaExecutor.stepFailMsg failStep.name e)) := by
        unfold rollbackWrap
        rw [hrb]
      rw [hmain, hwrap]
    · have hfind : ∀ p ∈ (good.zip ds).reverse,
          s2.findStepByType p.1.type = some p.1 := by
        intro p hp
        have hmem : p.1 ∈ good := (List.of_mem_zip (List.mem_reverse.mp hp)).1
        unfold SagaExecutor.findStepByType
        rw [hsteps]
        exact find_step_of_nodup (good ++ failStep :: rest) p.1
          (List.mem_append.mpr (Or.inl hmem)) hnd
      have hcompok : ∀ p ∈ (good.zip ds).reverse, CompOk p.1 := fun p hp =>
        hcomp p.1 (List.of_mem_zip (List.mem_reverse.mp hp)).1
      obtain ⟨sr, hrb, hrbstate⟩ :=
        rollback_all_ok ((good.zip ds).reverse) s2 hz hcompleted hfind hcompok
      have hwrap : rollbackWrap failStep.name e s2
          = (sr, compEvents ((good.zip ds).reverse),
             .error (SagaExecutor.stepFailMsg failStep.name e)) := by
        unfold rollbackWrap
        rw [hrb]
      rw [hmain, hwrap]

/-- w7Bad has a succeeding execute but a compensation failing on every
attempt. -/
def w7Bad : SagaStep :=
  { name := "b1", type := "tb", execute := fun _ => .ok [],
    compensate := some (fun _ _ => .error "cfail") }

/-- Witness for C7 at concrete two-step sagas for both branches. -/
theorem c7_step_failure_error_composition_witness :
    (buildSaga "w7a" true (([] ++ [w7Bad]) ++ w1Fail :: [])).Execute.2.2
        = .error (SagaExecutor.stepFailAndRollbackFailMsg w1Fail.name "bang"
            (SagaExecutor.rollbackFailMsg w7Bad.name "cfail")) ∧
    (buildSaga "w7b" true ([w1Good] ++ w1Fail :: [])).Execute.2.2
        = .error (SagaExecutor.stepFailMsg w1Fail.name "bang") :=
  ⟨c7_step_failure_error_composition.1 "w7a" [] [] w7Bad [] w1Fail [] "bang" "cfail"
      (fun _ _ => .error "cfail")
      (List.Forall₂.cons (fun j => rfl) List.Forall₂.nil)
      (fun j => rfl) (by decide) rfl (fun j d => rfl),
   c7_step_failure_error_composition.2 "w7b" [w1Good] [[("x", GoVal.vBool true)]]
      w1Fail [] "bang"
      (List.Forall₂.cons (fun j => rfl) List.Forall₂.nil)
      (fun j => rfl) (by decide)
      (by
        intro st hst
        rw [List.mem_singleton.mp hst]
        exact ⟨fun _ _ => .ok (), rfl, fun j d => rfl⟩)⟩

/-- C8: during rollback, the first compensation that still fails after its
bounded retries aborts rollback immediately: the trace ends at the failing
record (no compensation for any earlier-completed operation afterwards),
an error identifying the failed compensation is returned, and the workflow
status is left unchanged (in particular not set to `rolled_back`). -/
theorem c8_compensation_failure_aborts_rollback :
    ∀ (s : SagaExecutor) (pairs : List (SagaStep × RollbackData))
      (failRec : OperationRecord) (stF : SagaStep)
      (g : Nat → RollbackData → Except String Unit) (ce : String)
      (afterRecs : List OperationRecord),
      s.state.GetCompletedOperations = completedRecs pairs ++ failRec :: afterRecs →
      (∀ p ∈ pairs, s.findStepByType p.1.type = some p.1) →
      (∀ p ∈ pairs, CompOk p.1) →
      s.findStepByType failRec.type = some stF →
      stF.compensate = some g →
      (∀ j d, g j d = .error ce) →
      s.rollback.2.2 = .error (SagaExecutor.rollbackFailMsg stF.name ce) ∧
      s.rollback.2.1 = compEvents pairs ++ [(stF.name, failRec)] ∧
      s.rollback.1.state.status = s.state.status := by
  intro s pairs failRec stF g ce afterRecs hcompleted hfind hcomp hfindF hg hgf
  obtain ⟨s', hloopok, hst, hsteps, hen⟩ :=
    rollLoop_ok_phase pairs s (failRec :: afterRecs) hfind hcomp
  have hfindF2 : s'.findStepByType failRec.type = some stF :=
    (findStepByType_congr s' s _ hsteps).trans hfindF
  have hloopF := rollLoop_fail_head s' failRec stF g ce afterRecs hfindF2 hg hgf
  have hloopok2 : SagaExecutor.rollLoop s (completedRecs pairs ++ failRec :: afterRecs)
      = (s', compEvents pairs ++ [(stF.name, failRec)],
         .error (SagaExecutor.rollbackFailMsg stF.name ce)) := by
    rw [hloopok, hloopF]
  have hne : (completedRecs pairs ++ failRec :: afterRecs).isEmpty = false := by
    cases h : completedRecs pairs with
    | nil => rfl
    | cons a b => rfl
  have hrb : s.rollback
      = (s', compEvents pairs ++ [(stF.name, failRec)],
         .error (SagaExecutor.rollbackFailMsg stF.name ce)) := by
    unfold SagaExecutor.rollback
    rw [hcompleted]
    simp only [hne, Bool.false_eq_true, if_false, hloopok2]
  refine ⟨by rw [hrb], by rw [hrb], ?_⟩
  rw [hrb]
  show s'.state.status = s.state.status
  rw [hst]

/-- w8StepA compensates successfully; used as the earlier completed step. -/
def w8StepA : SagaStep :=
  { name := "a", type := "ta", execute := fun _ => .ok [],
    compensate := some (fun _ _ => .ok ()) }

/-- w8StepB has a compensation failing on every attempt. -/
def w8StepB : SagaStep :=
  { name := "b", type := "tb", execute := fun _ => .ok [],
    compensate := some (fun _ _ => .error "cex") }

/-- w8Exec is an executor whose state has two completed records; the most
recently completed one (compensated first) has a failing compensation. -/
def w8Exec : SagaExecutor :=
  { sessionID := "w8"
    savedStates := []
    state := { NewRollbackState "w8" with
               operations := [completedRec "ta" [], completedRec "tb" []]
               status := .failed }
    steps := [w8StepA, w8StepB]
    enableRollback := true }

/-- Witness for C8 at a concrete executor. -/
theorem c8_compensation_failure_aborts_rollback_witness :
    w8Exec.rollback.2.2 = .error (SagaExecutor.rollbackFailMsg w8StepB.name "cex") ∧
    w8Exec.rollback.2.1 = compEvents [] ++ [(w8StepB.name, completedRec "tb" [])] ∧
    w8Exec.rollback.1.state.status = w8Exec.state.status :=
  c8_compensation_failure_aborts_rollback w8Exec [] (completedRec "tb" []) w8StepB
    (fun _ _ => .error "cex") "cex" [completedRec "ta" []]
    (by decide)
    (by intro p hp; cases hp)
    (by intro p hp; cases hp)
    rfl rfl (fun j d => rfl)

/-- w32 truncates a value to a 32-bit word. -/
def w32 (n : Nat) : Nat := n % 4294967296

/-- rotr32 is a 32-bit right rotation (input assumed below 2^32). -/
def rotr32 (x n : Nat) : Nat := w32 ((x >>> n) ||| (x <<< (32 - n)))

/-- ssig0 is the SHA-256 small sigma-0 function. -/
def ssig0 (x : Nat) : Nat := (rotr32 x 7) ^^^ (rotr32 x 18) ^^^ (x >>> 3)

/-- ssig1 is the SHA-256 small sigma-1 function. -/
def ssig1 (x : Nat) : Nat := (rotr32 x 17) ^^^ (rotr32 x 19) ^^^ (x >>> 10)

/-- bsig0 is the SHA-256 big sigma-0 function. -/
def bsig0 (x : Nat) : Nat := (rotr32 x 2) ^^^ (rotr32 x 13) ^^^ (rotr32 x 22)

/-- bsig1 is the SHA-256 big sigma-1 function. -/
def bsig1 (x : Nat) : Nat := (rotr32 x 6) ^^^ (rotr32 x 11) ^^^ (rotr32 x 25)

/-- chf is the SHA-256 choice function (NOT via XOR with the 32-bit mask). -/
def chf (x y z : Nat) : Nat := (x &&& y) ^^^ ((x ^^^ 4294967295) &&& z)

/-- majf is the SHA-256 majority function. -/
def majf (x y z : Nat) : Nat := (x &&& y) ^^^ (x &&& z) ^^^ (y &&& z)

/-- sha256K lists the 64 SHA-256 round constants (decimal). -/
def sha256K : List Nat :=
  [1116352408, 1899447441, 3049323471, 3921009573, 961987163,
   1508970993, 2453635748, 2870763221, 3624381080, 310598401,
   607225278, 1426881987, 1925078388, 2162078206, 2614888103,
   3248222580, 3835390401, 4022224774, 264347078, 604807628,
   770255983, 1249150122, 1555081692, 1996064986, 2554220882,
   2821834349, 2952996808, 3210313671, 3336571891, 3584528711,
   113926993, 338241895, 666307205, 773529912, 1294757372,
   1396182291, 1695183700, 1986661051, 2177026350, 2456956037,
   2730485921, 2820302411, 3259730800, 3345764771, 3516065817,
   3600352804, 4094571909, 275423344, 430227734, 506948616,
   659060556, 883997877, 958139571, 1322822218, 1537002063,
   1747873779, 1955562222, 2024104815, 2227730452, 2361852424,
   2428436474, 2756734187, 3204031479, 3329325298]

/-- sha256Hash0 lists the 8 initial SHA-256 hash words (decimal). -/
def sha256Hash0 : List Nat :=
  [1779033703, 3144134277, 1013904242, 2773480762,
   1359893119, 2600822924, 528734635, 1541459225]

/-- bigEndian8 encodes a length in bits as 8 big-endian bytes. -/
def bigEndian8 (n : Nat) : List Nat :=
  [(n >>> 56) % 256, (n >>> 48) % 256, (n >>> 40) % 256, (n >>> 32) % 256,
   (n >>> 24) % 256, (n >>> 16) % 256, (n >>> 8) % 256, n % 256]

/-- padMessage appends the SHA-256 padding (0x80, zeros to 56 mod 64, then
the 64-bit big-endian bit length). -/
def padMessage (msg : List Nat) : List Nat :=
  let len := msg.length
  let r := (len + 1) % 64
  let z := (120 - r) % 64
  msg ++ [0x80] ++ List.replicate z 0 ++ bigEndian8 (len * 8)

/-- bytesToWords packs bytes into 32-bit big-endian words. -/
def bytesToWords : List Nat → List Nat
  | b0 :: b1 :: b2 :: b3 :: rest =>
    ((b0 <<< 24) + (b1 <<< 16) + (b2 <<< 8) + b3) :: bytesToWords rest
  | _ => []

/-- chunk16 splits a word list into 16-word blocks (padded input is always
a multiple of 16 words, so the ragged catch-all cannot occur). -/
def chunk16 : List Nat → List (List Nat)
  | [] => []
  | w0 :: w1 :: w2 :: w3 :: w4 :: w5 :: w6 :: w7 ::
    w8 :: w9 :: w10 :: w11 :: w12 :: w13 :: w14 :: w15 :: rest =>
    [w0, w1, w2, w3, w4, w5, w6, w7, w8, w9, w10, w11, w12, w13, w14, w15]
      :: chunk16 rest
  | other => [other]

/-- schedExtend extends the reversed message schedule by n words. -/
def schedExtend (revW : List Nat) : Nat → List Nat
  | 0 => revW
  | n + 1 =>
    schedExtend
      (w32 (ssig1 (revW.getD 1 0) + revW.getD 6 0
        + ssig0 (revW.getD 14 0) + revW.getD 15 0) :: revW) n

/-- schedule expands a 16-word block to the 64-word message schedule. -/
def schedule (block : List Nat) : List Nat :=
  (schedExtend block.reverse 48).reverse

/-- compressStep is one SHA-256 round on the 8-word working state. -/
def compressStep (st : List Nat) (kw : Nat × Nat) : List Nat :=
  match st with
  | [a, b, c, d, e, f, g2, h] =>
    let t1 := w32 (h + bsig1 e + chf e f g2 + kw.1 + kw.2)
    let t2 := w32 (bsig0 a + majf a b c)
    [w32 (t1 + t2), a, b, c, w32 (d + t1), e, f, g2]
  | other => other

/-- compressBlock runs the 64 rounds for one block and adds the result to
the running hash. -/
def compressBlock (hs : List Nat) (block : List Nat) : List Nat :=
  let st := (sha256K.zip (schedule block)).foldl compressStep hs
  (hs.zip st).map (fun p => w32 (p.1 + p.2))

/-- sha256 hashes a byte list to the 8 32-bit hash words. -/
def sha256 (msg : List Nat) : List Nat :=
  (chunk16 (bytesToWords (padMessage msg))).foldl compressBlock sha256Hash0

/-- wordToBytes splits a 32-bit word into 4 big-endian bytes. -/
def wordToBytes (w : Nat) : List Nat :=
  [(w >>> 24) % 256, (w >>> 16) % 256, (w >>> 8) % 256, w % 256]

/-- hexDigitCode is the ASCII code of a lowercase hex digit. -/
def hexDigitCode (n : Nat) : Nat := if n < 10 then 48 + n else 87 + n

/-- byteHex encodes one byte as the ASCII codes of its two lowercase hex
digits. -/
def byteHex (b : Nat) : List Nat := [hexDigitCode (b / 16), hexDigitCode (b % 16)]

/-- hexEncode is Go's `hex.EncodeToString`, with the resulting string
modelled as its ASCII byte list. -/
def hexEncode (bytes : List Nat) : List Nat := (bytes.map byteHex).join

/-- digestBytes flattens the 8 hash words into the 32 digest bytes. -/
def digestBytes (ws : List Nat) : List Nat := (ws.map wordToBytes).join

/-- calculateChecksum mirrors the Go helper: the lowercase hex encoding of
the SHA-256 digest of the data (strings as ASCII byte lists). -/
def calculateChecksum (data : List Nat) : List Nat :=
  hexEncode (digestBytes (sha256 data))

/-- strBytes converts a string to its byte list (claim inputs are ASCII,
where code points and UTF-8 bytes coincide). -/
def strBytes (s : String) : List Nat := s.data.map Char.toNat

/-- jsonEscapeChar escapes a quote or backslash as Go's JSON encoder does
(claim inputs contain no control characters). -/
def jsonEscapeChar (c : Char) : List Char :=
  if c = '\\' then ['\\', '\\'] else if c = '"' then ['\\', '"'] else [c]

/-- jsonStr is a JSON string literal as a byte list (34 is the quote). -/
def jsonStr (s : String) : List Nat :=
  34 :: ((s.data.map jsonEscapeChar).join.map Char.toNat) ++ [34]

/-- joinComma joins encoded items with the comma byte 44. -/
def joinComma : List (List Nat) → List Nat
  | [] => []
  | [x] => x
  | x :: xs => x ++ 44 :: joinComma xs

/-- bytesLE is byte-wise lexicographic comparison, as Go compares map
keys when encoding. -/
def bytesLE : List Nat → List Nat → Bool
  | [], _ => true
  | _ :: _, [] => false
  | a :: as, b :: bs =>
    if a < b then true
    else if b < a then false
    else bytesLE as bs

/-- strLE compares strings by their bytes. -/
def strLE (s t : String) : Bool := bytesLE (strBytes s) (strBytes t)

/-- insertSorted inserts an entry into a key-sorted association list. -/
def insertSorted (x : String × GoVal) :
    List (String × GoVal) → List (String × GoVal)
  | [] => [x]
  | y :: ys => if strLE x.1 y.1 then x :: y :: ys else y :: insertSorted x ys

/-- sortByKey sorts a bag by key, since Go's JSON encoder emits map keys
in sorted order. -/
def sortByKey (d : RollbackData) : RollbackData := d.foldr insertSorted []

/-- goValJson encodes a bag value as JSON bytes. -/
def goValJson : GoVal → List Nat
  | .vStr s => jsonStr s
  | .vBool b => if b then strBytes "true" else strBytes "false"

/-- rollbackDataJson encodes a bag as a JSON object (123/125 are braces). -/
def rollbackDataJson (d : RollbackData) : List Nat :=
  123 :: joinComma ((sortByKey d).map fun p => jsonStr p.1 ++ 58 :: goValJson p.2)
    ++ [125]

/-- workflowStatusStr gives the Go string value of a workflow status. -/
def workflowStatusStr : WorkflowStatus → String
  | .pending => "pending"
  | .running => "running"
  | .completed => "completed"
  | .failed => "failed"
  | .rolledBack => "rolled_back"

/-- operationStatusStr gives the Go string value of an operation status. -/
def operationStatusStr : OperationStatus → String
  | .pending => "pending"
  | .running => "running"
  | .completed => "completed"
  | .failed => "failed"
  | .rolledBack => "rolled_back"

/-- operationRecordJson encodes one record as Go's `json.Marshal` does on
the modelled fields, in struct order with `omitempty` on `rollback_data`
and `error` (58 is the colon byte; ID and time fields are outside the
model). -/
def operationRecordJson (r : OperationRecord) : List Nat :=
  123 :: (jsonStr "type" ++ 58 :: jsonStr r.type
    ++ 44 :: jsonStr "status" ++ 58 :: jsonStr (operationStatusStr r.status)
    ++ (if r.rollbackData.isEmpty then []
        else 44 :: jsonStr "rollback_data" ++ 58 :: rollbackDataJson r.rollbackData)
    ++ (if r.error = "" then [] else 44 :: jsonStr "error" ++ 58 :: jsonStr r.error))
  ++ [125]

/-- operationsJson encodes the record list as a JSON array (91/93 are the
square brackets). -/
def operationsJson (l : List OperationRecord) : List Nat :=
  91 :: joinComma (l.map operationRecordJson) ++ [93]

/-- marshalState is Go's `json.Marshal(state)` on the modelled fields, in
struct-tag order with `omitempty` on `error` (the time fields, omitted
from the model, appear between `session_id` and `version` in Go). -/
def marshalState (rs : RollbackState) : List Nat :=
  123 :: (jsonStr "session_id" ++ 58 :: jsonStr rs.sessionID
    ++ 44 :: jsonStr "version" ++ 58 :: jsonStr rs.version
    ++ 44 :: jsonStr "branch_name" ++ 58 :: jsonStr rs.branchName
    ++ 44 :: jsonStr "original_branch" ++ 58 :: jsonStr rs.originalBranch
    ++ 44 :: jsonStr "operations" ++ 58 :: operationsJson rs.operations
    ++ 44 :: jsonStr "status" ++ 58 :: jsonStr (workflowStatusStr rs.status)
    ++ (if rs.error = "" then [] else 44 :: jsonStr "error" ++ 58 :: jsonStr rs.error))
  ++ [125]

/-- StateSchemaVersion mirrors the repository constant. -/
def StateSchemaVersion : String := "1.0.0"

/-- StateMetadata mirrors the Go struct (time fields omitted; the checksum
hex string is modelled as its ASCII byte list). -/
structure StateMetadata where
  schemaVersion : String
  checksum : List Nat
deriving DecidableEq, Repr

/-- StateWrapper mirrors the Go persistence envelope. -/
structure StateWrapper where
  metadata : StateMetadata
  state : RollbackState
deriving DecidableEq, Repr

/-- StateStore models the repository's file system: the state directory,
the files it holds (newest binding first, shadowing older writes), and the
`latest` pointer. Locking and atomic temp-file renames are I/O-level
concerns outside the model; `Save` in the model always succeeds. -/
structure StateStore where
  stateDir : String
  files : List (String × StateWrapper)
  latest : Option String

/-- getStateFilename mirrors the Go helper. -/
def getStateFilename (stateDir sessionID : String) : String :=
  stateDir ++ "/state-" ++ sessionID ++ ".json"

/-- lookupFile reads a file from the store (first binding wins). -/
def lookupFile : List (String × StateWrapper) → String → Option StateWrapper
  | [], _ => none
  | (n, w) :: rest, name => if n = name then some w else lookupFile rest name

namespace JSONStateRepository

/-- Save mirrors the Go method: wrap the state with the schema version and
the checksum of its serialization, write the file, and update the latest
pointer. -/
def Save (store : StateStore) (state : RollbackState) : StateStore :=
  let filename := getStateFilename store.stateDir state.sessionID
  let wrapper : StateWrapper :=
    { metadata :=
        { schemaVersion := StateSchemaVersion
          checksum := calculateChecksum (marshalState state) }
      state := state }
  { store with files := (filename, wrapper) :: store.files, latest := some filename }

/-- Load mirrors the Go method: missing file is a distinct error, a schema
version mismatch is rejected, and a stored checksum differing from the
recomputed checksum of the embedded state is rejected as corruption. -/
def Load (store : StateStore) (sessionID : String) : Except String RollbackState :=
  match lookupFile store.files (getStateFilename store.stateDir sessionID) with
  | none => .error ("state not found for session " ++ sessionID)
  | some wrapper =>
    if wrapper.metadata.schemaVersion ≠ StateSchemaVersion then
      .error ("incompatible schema version: expected " ++ StateSchemaVersion
        ++ ", got " ++ wrapper.metadata.schemaVersion)
    else if wrapper.metadata.checksum ≠ calculateChecksum (marshalState wrapper.state) then
      .error "state checksum mismatch: data may be corrupted"
    else .ok wrapper.state

end JSONStateRepository

/-- alterStatePayload corrupts the persisted payload of a session: the
stored wrapper's state is replaced while its metadata (in particular the
stored checksum) is left untouched. -/
def alterStatePayload (store : StateStore) (sessionID : String)
    (st' : RollbackState) : StateStore :=
  { store with files := store.files.map fun p =>
      if p.1 = getStateFilename store.stateDir sessionID
      then (p.1, { p.2 with state := st' }) else p }

/-- C3: Save followed by Load of the same session returns the saved state
(its recomputed checksum matching the stored one), and altering the
persisted state payload without updating the stored checksum makes Load
fail with the corruption error and return no state. The hypothesis that
the altered payload's checksum differs expresses that the serialization
change is detectable by SHA-256, which the witness discharges by computing
both digests for a concrete one-field alteration. -/
theorem c3_save_load_roundtrip_and_corruption :
    (∀ (store : StateStore) (st : RollbackState),
        JSONStateRepository.Load (JSONStateRepository.Save store st) st.sessionID
          = .ok st) ∧
    (∀ (store : StateStore) (st st' : RollbackState),
        calculateChecksum (marshalState st') ≠ calculateChecksum (marshalState st) →
        JSONStateRepository.Load
            (alterStatePayload (JSONStateRepository.Save store st) st.sessionID st')
            st.sessionID
          = .error "state checksum mismatch: data may be corrupted") := by
  constructor
  · intro store st
    simp [JSONStateRepository.Save, JSONStateRepository.Load, lookupFile]
  · intro store st st' hne
    have hcond : calculateChecksum (marshalState st)
        ≠ calculateChecksum (marshalState st') := fun h => hne h.symm
    have hfiles : (alterStatePayload (JSONStateRepository.Save store st)
          st.sessionID st').files
        = (getStateFilename store.stateDir st.sessionID,
            { metadata := { schemaVersion := StateSchemaVersion
                            checksum := calculateChecksum (marshalState st) }
              state := st' })
          :: (store.files.map fun p =>
              if p.1 = getStateFilename store.stateDir st.sessionID
              then (p.1, { p.2 with state := st' }) else p) := by
      simp [alterStatePayload, JSONStateRepository.Save]
    have hdir : (alterStatePayload (JSONStateRepository.Save store st)
        st.sessionID st').stateDir = store.stateDir := rfl
    unfold JSONStateRepository.Load
    rw [hdir, hfiles]
    simp [lookupFile, hcond]

/-- w3Store is an empty state store. -/
def w3Store : StateStore :=
  { stateDir := ".release-state", files := [], latest := none }

/-- w3State is a realistic saved workflow state. -/
def w3State : RollbackState :=
  { sessionID := "s1", version := "1.2.3", branchName := "release-v1.2.3",
    originalBranch := "main",
    operations := [completedRec "create_branch"
      [("branch_name", .vStr "release-v1.2.3"), ("created_in_session", .vBool true)]],
    status := .completed, error := "" }

/-- w3Bad is w3State with a single field altered, changing its
serialization. -/
def w3Bad : RollbackState := { w3State with version := "1.2.4" }

set_option maxRecDepth 10000 in
/-- Witness for C3: the concrete round trip, and the concrete corruption
where both SHA-256 digests are computed and differ. -/
theorem c3_save_load_roundtrip_and_corruption_witness :
    JSONStateRepository.Load (JSONStateRepository.Save w3Store w3State)
        w3State.sessionID = .ok w3State ∧
    JSONStateRepository.Load
        (alterStatePayload (JSONStateRepository.Save w3Store w3State)
          w3State.sessionID w3Bad)
        w3State.sessionID
      = .error "state checksum mismatch: data may be corrupted" :=
  ⟨c3_save_load_roundtrip_and_corruption.1 w3Store w3State,
   c3_save_load_roundtrip_and_corruption.2 w3Store w3State w3Bad (by decide)⟩

